import Mathlib

open scoped List

/-
Verification of the sitemap ingestion-and-analytics engine in
`sitemap_server.py` against its natural-language specification.

The Python source is shallowly embedded: the parsed-XML document trees that
`xmltodict.parse` hands to the helpers are modelled by the inductive `Xml`
(string leaves, mappings, sequences, and `None`), Python's `in` / `[...]`
operators on such loosely typed values are modelled by partial functions
into `Except Unit` (`.error ()` standing for a raised `TypeError`/`KeyError`),
and each helper of the source file is translated clause by clause.
-/

/-- A parsed XML document value as produced by `xmltodict.parse`:
nested mappings (Python `dict`, key order preserved), sequences
(Python `list`), text leaves (`str`) and `None` (an empty element). -/
inductive Xml where
  | str : String → Xml
  | obj : List (String × Xml) → Xml
  | arr : List Xml → Xml
  | null : Xml

/-- Key lookup in a Python mapping (models `d[k]` resolution and `k in d`
on dicts; Python dict keys are unique, an association list with first-match
lookup is an exact model). -/
def dlookup (d : List (String × Xml)) (k : String) : Option Xml :=
  (d.find? (fun p => p.1 == k)).map (·.2)

/-- `k in d` for a Python dict given as an association list. -/
def hasKeyKV (d : List (String × Xml)) (k : String) : Bool :=
  d.any (fun p => p.1 == k)

/-- Does the character list `p` occur at the head of `l`? -/
def leadsWith : List Char → List Char → Bool
  | [], _ => true
  | _ :: _, [] => false
  | c :: cs, x :: xs => c == x && leadsWith cs xs

/-- Substring test on character lists (models Python `needle in haystack`
for strings). -/
def hasSub (needle : List Char) : List Char → Bool
  | [] => leadsWith needle []
  | x :: xs => leadsWith needle (x :: xs) || hasSub needle xs

/-- Is `e` the Python string `k`?  (Python `==` between a `str` and a
non-`str` XML value is `False`.) -/
def xmlIsStr (e : Xml) (k : String) : Bool :=
  match e with
  | .str s => s == k
  | _ => false

/-- Python `k in v` for a loosely typed value `v`: key test on a mapping,
substring test on a string, membership test on a sequence, and a raised
`TypeError` on `None`. -/
def pyContains (v : Xml) (k : String) : Except Unit Bool :=
  match v with
  | .obj kvs => .ok (hasKeyKV kvs k)
  | .str s => .ok (hasSub k.toList s.toList)
  | .arr l => .ok (l.any (fun e => xmlIsStr e k))
  | .null => .error ()

/-- Python `v[k]` for a loosely typed value `v`: succeeds only on a mapping
holding the key; indexing a string or a list with a string, or `None`,
raises `TypeError` (and a missing key raises `KeyError`). -/
def pyGetItem (v : Xml) (k : String) : Except Unit Xml :=
  match v with
  | .obj kvs =>
    match dlookup kvs k with
    | some x => .ok x
    | none => .error ()
  | _ => .error ()

/-- Python `e.get(k)` on a mapping, `None` (modelled as `Xml.null`) when the
key is absent.  Only ever reached on mappings in the translated code. -/
def xmlGetD (v : Xml) (k : String) : Xml :=
  match v with
  | .obj kvs => (dlookup kvs k).getD .null
  | _ => .null

/-- One normalized URL record as built by `_extract_url_details`
(`sitemap_server.py:395-435`): the four dict entries `loc`, `lastmod`,
`changefreq`, `priority`; a Python `None` value is `Xml.null`. -/
structure UrlInfo where
  loc : Xml
  lastmod : Xml
  changefreq : Xml
  priority : Xml

/-- Processing of one `<url>`/`<sitemap>` entry by `_extract_url_details`:
`if 'loc' in entry:` then build the record (`standard` selects whether
`changefreq`/`priority` are read from the entry or forced to `None`,
`sitemap_server.py:393-410` vs `419-436`). -/
def extract_entry (standard : Bool) (e : Xml) : Except Unit (List UrlInfo) := do
  if (← pyContains e "loc") then
    let l ← pyGetItem e "loc"
    if standard then
      pure [⟨l, xmlGetD e "lastmod", xmlGetD e "changefreq", xmlGetD e "priority"⟩]
    else
      pure [⟨l, xmlGetD e "lastmod", .null, .null⟩]
  else
    pure []

/-- The `for entry in url_entries:` loop of `_extract_url_details`
(`sitemap_server.py:392-401` / `418-427`): records are appended in order,
a raised exception aborts the whole call. -/
def extract_list (standard : Bool) : List Xml → Except Unit (List UrlInfo)
  | [] => pure []
  | e :: es => do
    let h ← extract_entry standard e
    let t ← extract_list standard es
    pure (h ++ t)

/-- The `isinstance(url_entries, list)` shape test of `_extract_url_details`
(`sitemap_server.py:392` / `418`): a sequence is iterated, anything else is
treated as a single entry. -/
def extract_entries (standard : Bool) : Xml → Except Unit (List UrlInfo)
  | .arr es => extract_list standard es
  | e => extract_entry standard e

/-- `_extract_url_details` (`sitemap_server.py:382-438`): the `urlset`
branch, the `elif sitemapindex` branch, and the fall-through returning the
(empty) accumulator. -/
def extract_url_details (d : List (String × Xml)) : Except Unit (List UrlInfo) :=
  match dlookup d "urlset" with
  | some urlset => do
    if (← pyContains urlset "url") then
      extract_entries true (← pyGetItem urlset "url")
    else
      pure []
  | none =>
    match dlookup d "sitemapindex" with
    | some smi => do
      if (← pyContains smi "sitemap") then
        extract_entries false (← pyGetItem smi "sitemap")
      else
        pure []
    | none => pure []

/-- `_detect_sitemap_type` (`sitemap_server.py:440-447`). -/
def detect_sitemap_type (d : List (String × Xml)) : String :=
  if (dlookup d "urlset").isSome then "standard_sitemap"
  else if (dlookup d "sitemapindex").isSome then "sitemap_index"
  else "unknown"

/-- `_extract_urls` (`sitemap_server.py:377-380`): the legacy extractor,
`[item['loc'] for item in _extract_url_details(data)]`. -/
def extract_urls (d : List (String × Xml)) : Except Unit (List Xml) := do
  let details ← extract_url_details d
  pure (details.map (·.loc))

/-- The record the `urlset` branch builds from a mapping entry that holds
`loc` (`sitemap_server.py:395-400`). -/
def stdRecordOf (e : List (String × Xml)) : UrlInfo :=
  ⟨(dlookup e "loc").getD .null, (dlookup e "lastmod").getD .null,
   (dlookup e "changefreq").getD .null, (dlookup e "priority").getD .null⟩

/-- The record the `sitemapindex` branch builds from a mapping entry that
holds `loc` (`sitemap_server.py:421-426`): metadata forced to `None`. -/
def idxRecordOf (e : List (String × Xml)) : UrlInfo :=
  ⟨(dlookup e "loc").getD .null, (dlookup e "lastmod").getD .null, .null, .null⟩

-- Helper lemmas about the extraction embedding.

theorem okBind {α β : Type} (a : α) (f : α → Except Unit β) :
    (Except.ok a >>= f) = f a := rfl

theorem errBind {α β : Type} (u : Unit) (f : α → Except Unit β) :
    ((Except.error u : Except Unit α) >>= f) = Except.error u := rfl

theorem okMap {α β : Type} (f : α → β) (a : α) :
    (f <$> (Except.ok a : Except Unit α)) = Except.ok (f a) := rfl

theorem errMap {α β : Type} (f : α → β) (u : Unit) :
    (f <$> (Except.error u : Except Unit α)) = Except.error u := rfl

theorem pureExcept {α : Type} (a : α) : (pure a : Except Unit α) = Except.ok a := rfl

theorem dlookup_isSome_of_hasKeyKV {d : List (String × Xml)} {k : String}
    (h : hasKeyKV d k = true) : ∃ v, dlookup d k = some v := by
  simp only [hasKeyKV, List.any_eq_true] at h
  obtain ⟨p, hp, hk⟩ := h
  have : (d.find? (fun p => p.1 == k)).isSome := by
    rw [List.find?_isSome]
    exact ⟨p, hp, hk⟩
  obtain ⟨q, hq⟩ := Option.isSome_iff_exists.mp this
  exact ⟨q.2, by simp [dlookup, hq]⟩

theorem extract_entry_obj (standard : Bool) (e : List (String × Xml)) :
    extract_entry standard (.obj e) =
      .ok (if hasKeyKV e "loc" then
             [if standard then stdRecordOf e else idxRecordOf e]
           else []) := by
  cases h : hasKeyKV e "loc" with
  | false => simp [extract_entry, pyContains, h, okBind, pureExcept]
  | true =>
    obtain ⟨v, hv⟩ := dlookup_isSome_of_hasKeyKV h
    cases standard <;>
      simp [extract_entry, pyContains, pyGetItem, h, hv, stdRecordOf, idxRecordOf, xmlGetD, okBind, pureExcept]

theorem extract_list_objs (standard : Bool) (es : List (List (String × Xml))) :
    extract_list standard (es.map Xml.obj) =
      .ok ((es.filter (fun e => hasKeyKV e "loc")).map
             (fun e => if standard then stdRecordOf e else idxRecordOf e)) := by
  induction es with
  | nil => simp [extract_list, pureExcept]
  | cons e es ih =>
    simp only [List.map_cons, extract_list, extract_entry_obj, ih]
    cases h : hasKeyKV e "loc" <;> simp [h, okBind, pureExcept]

theorem extract_entry_false_fields {e : Xml} {l : List UrlInfo}
    (h : extract_entry false e = .ok l) :
    ∀ r ∈ l, r.changefreq = .null ∧ r.priority = .null := by
  cases e with
  | obj kvs =>
    rw [extract_entry_obj] at h
    cases hk : hasKeyKV kvs "loc" <;> simp [hk] at h <;> subst h
    · simp
    · simp [idxRecordOf]
  | str s =>
    simp only [extract_entry, pyContains, okBind] at h
    split at h
    · simp [pyGetItem, errBind] at h
    · simp [pureExcept] at h; subst h; simp
  | arr es =>
    simp only [extract_entry, pyContains, okBind] at h
    split at h
    · simp [pyGetItem, errBind] at h
    · simp [pureExcept] at h; subst h; simp
  | null => simp [extract_entry, pyContains, errBind] at h

theorem extract_entries_false_fields {e : Xml} {l : List UrlInfo}
    (h : extract_entries false e = .ok l) :
    ∀ r ∈ l, r.changefreq = .null ∧ r.priority = .null := by
  cases e with
  | arr es =>
    simp only [extract_entries] at h
    induction es generalizing l with
    | nil => simp [extract_list, pureExcept] at h; subst h; simp
    | cons x xs ih =>
      simp only [extract_list] at h
      cases hx : extract_entry false x with
      | error u => simp [hx, errBind] at h
      | ok hl =>
        cases ht : extract_list false xs with
        | error u => simp [hx, ht, okBind, errBind] at h
        | ok tl =>
          simp [hx, ht, okBind, pureExcept] at h
          subst h
          intro r hr
          rcases List.mem_append.mp hr with hr | hr
          · exact extract_entry_false_fields hx r hr
          · exact ih ht r hr
  | obj kvs => exact extract_entry_false_fields (e := .obj kvs) h
  | str s => exact extract_entry_false_fields (e := .str s) h
  | null => exact extract_entry_false_fields (e := .null) h

theorem hasKeyKV_eq_isSome (d : List (String × Xml)) (k : String) :
    hasKeyKV d k = (dlookup d k).isSome := by
  induction d with
  | nil => rfl
  | cons p ps ih =>
    simp only [hasKeyKV, List.any_cons, dlookup, List.find?]
    cases h : (p.1 == k) with
    | true => simp
    | false => simpa [hasKeyKV, dlookup] using ih

/-- Claim C1 (counterexample): `xmltodict.parse("<urlset/>")` yields the tree
`{'urlset': None}`; on it `_extract_url_details` evaluates `'url' in None`,
which raises `TypeError` instead of returning the empty sequence the claim
promises for unrecognized shapes. -/
theorem c1_counterexample :
    extract_url_details [("urlset", Xml.null)] = .error () := rfl

/-- Claim C1 (amended): the normalizer returns without raising whenever the
value under `urlset`/`sitemapindex` is a mapping and the `url`/`sitemap`
child, when present, is a mapping or a sequence of mappings; then a missing
child key yields the empty sequence, entries lacking `loc` are dropped
silently, and no record is produced for them.  If neither key is present the
result is the empty sequence for every tree.  (A non-mapping value such as
`None` under `urlset` raises, per `c1_counterexample`.) -/
theorem c1_normalizer_amended :
    (∀ d : List (String × Xml), dlookup d "urlset" = none →
      dlookup d "sitemapindex" = none → extract_url_details d = .ok []) ∧
    (∀ d kvs, dlookup d "urlset" = some (.obj kvs) → dlookup kvs "url" = none →
      extract_url_details d = .ok []) ∧
    (∀ d kvs, dlookup d "urlset" = none → dlookup d "sitemapindex" = some (.obj kvs) →
      dlookup kvs "sitemap" = none → extract_url_details d = .ok []) ∧
    (∀ d kvs (entries : List (List (String × Xml))), dlookup d "urlset" = some (.obj kvs) →
      dlookup kvs "url" = some (.arr (entries.map Xml.obj)) →
      extract_url_details d =
        .ok ((entries.filter (fun e => hasKeyKV e "loc")).map stdRecordOf)) ∧
    (∀ d kvs e, dlookup d "urlset" = some (.obj kvs) →
      dlookup kvs "url" = some (.obj e) →
      extract_url_details d =
        .ok (if hasKeyKV e "loc" then [stdRecordOf e] else [])) ∧
    (∀ d kvs (entries : List (List (String × Xml))), dlookup d "urlset" = none →
      dlookup d "sitemapindex" = some (.obj kvs) →
      dlookup kvs "sitemap" = some (.arr (entries.map Xml.obj)) →
      extract_url_details d =
        .ok ((entries.filter (fun e => hasKeyKV e "loc")).map idxRecordOf)) := by
  refine ⟨?_, ?_, ?_, ?_, ?_, ?_⟩
  · intro d h1 h2
    simp [extract_url_details, h1, h2, pureExcept]
  · intro d kvs h1 h2
    have hk : hasKeyKV kvs "url" = false := by
      rw [hasKeyKV_eq_isSome, h2]; rfl
    simp [extract_url_details, h1, pyContains, hk, okBind, pureExcept]
  · intro d kvs h1 h2 h3
    have hk : hasKeyKV kvs "sitemap" = false := by
      rw [hasKeyKV_eq_isSome, h3]; rfl
    simp [extract_url_details, h1, h2, pyContains, hk, okBind, pureExcept]
  · intro d kvs entries h1 h2
    have hk : hasKeyKV kvs "url" = true := by
      rw [hasKeyKV_eq_isSome, h2]; rfl
    simp [extract_url_details, h1, pyContains, pyGetItem, hk, h2, okBind,
          extract_entries, extract_list_objs]
  · intro d kvs e h1 h2
    have hk : hasKeyKV kvs "url" = true := by
      rw [hasKeyKV_eq_isSome, h2]; rfl
    cases he : hasKeyKV e "loc" <;>
      simp [extract_url_details, h1, pyContains, pyGetItem, hk, h2, okBind,
            extract_entries, extract_entry_obj, he]
  · intro d kvs entries h1 h2 h3
    have hk : hasKeyKV kvs "sitemap" = true := by
      rw [hasKeyKV_eq_isSome, h3]; rfl
    simp [extract_url_details, h1, h2, pyContains, pyGetItem, hk, h3, okBind,
          extract_entries, extract_list_objs]

/-- Witness for `c1_normalizer_amended` at concrete inputs: an unknown-shape
tree yields the empty sequence, and in a two-entry `urlset` the entry lacking
`loc` is silently dropped while the other produces its record. -/
theorem c1_normalizer_amended_witness :
    extract_url_details [("foo", Xml.obj [])] = .ok [] ∧
    extract_url_details
        [("urlset", Xml.obj [("url", Xml.arr
          [Xml.obj [("loc", Xml.str "https://a.com/x"), ("priority", Xml.str "0.8")],
           Xml.obj [("lastmod", Xml.str "2024-01-01")]])])] =
      .ok (([[("loc", Xml.str "https://a.com/x"), ("priority", Xml.str "0.8")],
             [("lastmod", Xml.str "2024-01-01")]].filter
              (fun e => hasKeyKV e "loc")).map stdRecordOf) :=
  ⟨c1_normalizer_amended.1 _ rfl rfl,
   c1_normalizer_amended.2.2.2.1 _ _
     [[("loc", Xml.str "https://a.com/x"), ("priority", Xml.str "0.8")],
      [("lastmod", Xml.str "2024-01-01")]] rfl rfl⟩

/-- Claim C2: in a parsed document whose (single) root is `sitemapindex`,
every record the normalizer produces has `changefreq` and `priority` unset
(`None`), even if the raw entry carries such tags; and a single mapping
under `sitemap` is handled exactly like the one-element sequence of it. -/
theorem c2_sitemapindex_no_metadata :
    (∀ (d : List (String × Xml)) (l : List UrlInfo),
      dlookup d "urlset" = none → extract_url_details d = .ok l →
      ∀ r ∈ l, r.changefreq = .null ∧ r.priority = .null) ∧
    (∀ e : List (String × Xml),
      extract_url_details [("sitemapindex", Xml.obj [("sitemap", Xml.obj e)])] =
        extract_url_details
          [("sitemapindex", Xml.obj [("sitemap", Xml.arr [Xml.obj e])])]) := by
  constructor
  · intro d l h1 h2
    cases h3 : dlookup d "sitemapindex" with
    | none =>
      simp only [extract_url_details, h1, h3, pureExcept] at h2
      cases h2; simp
    | some smi =>
      simp only [extract_url_details, h1, h3] at h2
      cases hc : pyContains smi "sitemap" with
      | error u => simp only [hc, errBind] at h2; exact absurd h2 (by simp)
      | ok b =>
        simp only [hc, okBind] at h2
        cases b with
        | false =>
          rw [if_neg (by simp)] at h2
          simp only [pureExcept] at h2
          cases h2; simp
        | true =>
          rw [if_pos rfl] at h2
          cases hg : pyGetItem smi "sitemap" with
          | error u => simp only [hg, errBind] at h2; exact absurd h2 (by simp)
          | ok ent =>
            simp only [hg, okBind] at h2
            exact extract_entries_false_fields h2
  · intro e
    cases hx : extract_entry false (.obj e) <;>
      simp [extract_url_details, dlookup, pyContains, pyGetItem, hasKeyKV,
            extract_entries, extract_list, hx, okBind, errBind, pureExcept]

/-- Witness for `c2_sitemapindex_no_metadata`: a concrete sitemap-index entry
that does carry `changefreq`/`priority` tags still normalizes to a record
with both unset, and its single-vs-sequence encodings agree. -/
theorem c2_sitemapindex_no_metadata_witness :
    ((idxRecordOf [("loc", Xml.str "https://a.com/s.xml"),
                   ("changefreq", Xml.str "daily"),
                   ("priority", Xml.str "0.5")]).changefreq = Xml.null ∧
     (idxRecordOf [("loc", Xml.str "https://a.com/s.xml"),
                   ("changefreq", Xml.str "daily"),
                   ("priority", Xml.str "0.5")]).priority = Xml.null) ∧
    extract_url_details
        [("sitemapindex", Xml.obj [("sitemap", Xml.obj
          [("loc", Xml.str "https://a.com/s.xml"),
           ("changefreq", Xml.str "daily"),
           ("priority", Xml.str "0.5")])])] =
      extract_url_details
        [("sitemapindex", Xml.obj [("sitemap", Xml.arr [Xml.obj
          [("loc", Xml.str "https://a.com/s.xml"),
           ("changefreq", Xml.str "daily"),
           ("priority", Xml.str "0.5")]])])] :=
  ⟨c2_sitemapindex_no_metadata.1
      [("sitemapindex", Xml.obj [("sitemap", Xml.obj
        [("loc", Xml.str "https://a.com/s.xml"),
         ("changefreq", Xml.str "daily"),
         ("priority", Xml.str "0.5")])])]
      [idxRecordOf [("loc", Xml.str "https://a.com/s.xml"),
                    ("changefreq", Xml.str "daily"),
                    ("priority", Xml.str "0.5")]]
      rfl rfl _ (List.mem_singleton.mpr rfl),
   c2_sitemapindex_no_metadata.2 _⟩

/-- Claim C10: the legacy extractor `_extract_urls` returns exactly the
`loc` fields of `_extract_url_details`, in order (and raises exactly when
the detailed extractor raises). -/
theorem c10_extract_urls_agree (d : List (String × Xml)) :
    extract_urls d = Except.map (fun l => l.map UrlInfo.loc) (extract_url_details d) := by
  cases h : extract_url_details d <;>
    simp [extract_urls, Except.map, h, okBind, errBind, pureExcept]

/-
Python's `list.sort(key=..., reverse=True)` and `sorted(..., reverse=True)`
are stable: elements with equal keys keep their original relative order
(reversal is applied to the comparison, not to the result).  When every pair
of keys is comparable the result is therefore exactly the stable descending
sort, which the following insertion sort computes: each new element is
placed after all earlier elements with a key not smaller than its own.
-/

/-- Insert `x` (coming after everything in `l` in input order) into the
descending-sorted list `l`: after all elements with a key `≥ key x`. -/
def insertDescBy {α : Type} (key : α → Int) (x : α) : List α → List α
  | [] => [x]
  | y :: ys => if key y < key x then x :: y :: ys else y :: insertDescBy key x ys

/-- Stable descending sort by an integer key. -/
def sortDescBy {α : Type} (key : α → Int) (l : List α) : List α :=
  l.foldl (fun acc x => insertDescBy key x acc) []

theorem insertDescBy_perm {α : Type} (key : α → Int) (x : α) (l : List α) :
    insertDescBy key x l ~ x :: l := by
  induction l with
  | nil => exact List.Perm.refl _
  | cons y ys ih =>
    by_cases h : key y < key x
    · simp [insertDescBy, h]
    · simp only [insertDescBy, if_neg h]
      exact (ih.cons y).trans (List.Perm.swap x y ys)

theorem insertDescBy_sorted {α : Type} {key : α → Int} {x : α} {l : List α}
    (h : l.Pairwise (fun a b => key b ≤ key a)) :
    (insertDescBy key x l).Pairwise (fun a b => key b ≤ key a) := by
  induction l with
  | nil => simp [insertDescBy]
  | cons y ys ih =>
    rcases List.pairwise_cons.mp h with ⟨hy, hys⟩
    by_cases hk : key y < key x
    · simp only [insertDescBy, if_pos hk]
      refine List.pairwise_cons.mpr ⟨?_, h⟩
      intro z hz
      rcases List.mem_cons.mp hz with rfl | hz
      · exact le_of_lt hk
      · exact (hy z hz).trans (le_of_lt hk)
    · simp only [insertDescBy, if_neg hk]
      refine List.pairwise_cons.mpr ⟨?_, ih hys⟩
      intro z hz
      have hz' := (insertDescBy_perm key x ys).mem_iff.mp hz
      rcases List.mem_cons.mp hz' with rfl | hz'
      · exact le_of_not_lt hk
      · exact hy z hz'

theorem insertDescBy_filter_ne {α : Type} (key : α → Int) (x : α) (l : List α)
    (k : Int) (hx : ¬ key x = k) :
    (insertDescBy key x l).filter (fun a => key a == k) =
      l.filter (fun a => key a == k) := by
  induction l with
  | nil => simp [insertDescBy, hx]
  | cons y ys ih =>
    by_cases h : key y < key x
    · simp [insertDescBy, h, List.filter_cons, hx]
    · simp only [insertDescBy, if_neg h, List.filter_cons]
      cases hy : (key y == k) <;> simp [ih]

theorem insertDescBy_filter_eq {α : Type} {key : α → Int} {x : α} {l : List α}
    (hs : l.Pairwise (fun a b => key b ≤ key a)) :
    (insertDescBy key x l).filter (fun a => key a == key x) =
      l.filter (fun a => key a == key x) ++ [x] := by
  induction l with
  | nil => simp [insertDescBy]
  | cons y ys ih =>
    rcases List.pairwise_cons.mp hs with ⟨hy, hys⟩
    by_cases h : key y < key x
    · have hnil : (y :: ys).filter (fun a => key a == key x) = [] := by
        rw [List.filter_eq_nil_iff]
        intro a ha
        have hle : key a ≤ key y := by
          rcases List.mem_cons.mp ha with rfl | ha
          · exact le_refl _
          · exact hy a ha
        simp only [beq_iff_eq]
        exact ne_of_lt (lt_of_le_of_lt hle h)
      simp [insertDescBy, h, List.filter_cons, hnil]
    · simp only [insertDescBy, if_neg h, List.filter_cons]
      cases hy2 : (key y == key x) <;> simp [ih hys]

theorem sortDescBy_aux_perm {α : Type} (key : α → Int) :
    ∀ (l acc : List α), l.foldl (fun acc x => insertDescBy key x acc) acc ~ acc ++ l := by
  intro l
  induction l with
  | nil => intro acc; simp
  | cons x xs ih =>
    intro acc
    have h1 : (x :: xs).foldl (fun acc x => insertDescBy key x acc) acc
        = xs.foldl (fun acc x => insertDescBy key x acc) (insertDescBy key x acc) := rfl
    rw [h1]
    have h2 := ih (insertDescBy key x acc)
    have h3 := (insertDescBy_perm key x acc).append_right xs
    exact (h2.trans h3).trans List.perm_middle.symm

theorem sortDescBy_perm {α : Type} (key : α → Int) (l : List α) :
    sortDescBy key l ~ l := by
  simpa using sortDescBy_aux_perm key l []

theorem sortDescBy_aux_sorted {α : Type} (key : α → Int) :
    ∀ (l acc : List α), acc.Pairwise (fun a b => key b ≤ key a) →
      (l.foldl (fun acc x => insertDescBy key x acc) acc).Pairwise
        (fun a b => key b ≤ key a) := by
  intro l
  induction l with
  | nil => intro acc h; exact h
  | cons x xs ih => intro acc h; exact ih _ (insertDescBy_sorted h)

theorem sortDescBy_sorted {α : Type} (key : α → Int) (l : List α) :
    (sortDescBy key l).Pairwise (fun a b => key b ≤ key a) :=
  sortDescBy_aux_sorted key l [] (List.Pairwise.nil)

theorem sortDescBy_aux_filter {α : Type} (key : α → Int) (k : Int) :
    ∀ (l acc : List α), acc.Pairwise (fun a b => key b ≤ key a) →
      (l.foldl (fun acc x => insertDescBy key x acc) acc).filter (fun a => key a == k) =
        acc.filter (fun a => key a == k) ++ l.filter (fun a => key a == k) := by
  intro l
  induction l with
  | nil => intro acc h; simp
  | cons x xs ih =>
    intro acc h
    have step : (x :: xs).foldl (fun acc x => insertDescBy key x acc) acc
        = xs.foldl (fun acc x => insertDescBy key x acc) (insertDescBy key x acc) := rfl
    rw [step, ih _ (insertDescBy_sorted h)]
    by_cases hx : key x = k
    · subst hx
      rw [insertDescBy_filter_eq h]
      simp [List.filter_cons]
    · rw [insertDescBy_filter_ne key x acc k hx]
      simp [List.filter_cons, hx]

/-- Stability of the modelled Python sort: restricted to any one key value,
the sorted list is exactly the input sublist, in input order. -/
theorem sortDescBy_filter {α : Type} (key : α → Int) (l : List α) (k : Int) :
    (sortDescBy key l).filter (fun a => key a == k) = l.filter (fun a => key a == k) := by
  simpa using sortDescBy_aux_filter key k l [] (List.Pairwise.nil)

/-
Model of the pieces of `urllib.parse.urlparse` the analyzer uses
(`netloc` and `path`), following CPython `urlsplit`: scheme detection
(leading ASCII letter, then letters/digits/`+`/`-`/`.` before the first
`:`), `//`-led netloc up to the first of `/`, `?`, `#`, then fragment and
query stripping.  Out of the model's scope (irrelevant to the claims and
unused by the witnesses): params splitting, netloc canonicalization checks,
and non-ASCII case mapping in `str.lower`.
-/

/-- Python `s.split(sep)` for a one-character separator, on char lists:
`"".split(c) == ['']`, separators at the ends produce empty parts. -/
def splitOnChar (c : Char) : List Char → List (List Char)
  | [] => [[]]
  | x :: xs =>
    if x = c then [] :: splitOnChar c xs
    else
      match splitOnChar c xs with
      | h :: t => (x :: h) :: t
      | [] => [[x]]

/-- Python `parts[-1]` on a split result (split results are never empty). -/
def lastOr (d : List Char) : List (List Char) → List Char
  | [] => d
  | [x] => x
  | _ :: x :: xs => lastOr d (x :: xs)

/-- `s.split(sep, 1)` when the separator occurs: the part before the first
occurrence and the remainder after it. -/
def splitFirst? (c : Char) : List Char → Option (List Char × List Char)
  | [] => none
  | x :: xs =>
    if x = c then some ([], xs)
    else (splitFirst? c xs).map (fun p => (x :: p.1, p.2))

/-- ASCII-lowering of `str.lower` (the inputs at stake are ASCII). -/
def lowerChars (l : List Char) : List Char := l.map Char.toLower

def isSchemeChar (c : Char) : Bool :=
  c.isAlpha || c.isDigit || c == '+' || c == '-' || c == '.'

/-- `urllib.parse.urlparse`'s params split (CPython `_splitparams`): when
the path holds a `;` in its last `/`-segment, that segment's part from the
first `;` on becomes the params and is removed from the path; with no `/`
in the path at all, the split is at the path's first `;`. -/
def splitParams (p : List Char) : List Char :=
  if '/' ∈ p then
    let lastSeg := lastOr [] (splitOnChar '/' p)
    match splitFirst? ';' lastSeg with
    | some (a, _) => p.take (p.length - lastSeg.length) ++ a
    | none => p
  else
    match splitFirst? ';' p with
    | some (a, _) => a
    | none => p

structure UrlParts where
  scheme : String
  netloc : String
  path : String
deriving Repr, DecidableEq

/-- `urllib.parse.urlparse(u)`, restricted to the fields the server reads
(`netloc` and `path`, the latter after the params split). -/
def pyUrlparse (u : String) : UrlParts :=
  let cs := u.toList
  let (scheme, rest) :=
    match splitFirst? ':' cs with
    | some (a, b) =>
      match a with
      | c0 :: _ => if c0.isAlpha && a.all isSchemeChar then (lowerChars a, b) else ([], cs)
      | [] => ([], cs)
    | none => ([], cs)
  let (netloc, rest) :=
    match rest with
    | '/' :: '/' :: r =>
      let nl := r.takeWhile (fun c => !(c == '/' || c == '?' || c == '#'))
      (nl, r.drop nl.length)
    | _ => ([], rest)
  let rest := match splitFirst? '#' rest with | some (a, _) => a | none => rest
  let rest := match splitFirst? '?' rest with | some (a, _) => a | none => rest
  ⟨String.mk scheme, String.mk netloc, String.mk (splitParams rest)⟩

/-- `d[k] = d.get(k, 0) + 1` on a Python dict used as a counter: an existing
key is updated in place (its position is kept), a new key is appended. -/
def bump (m : List (String × Nat)) (k : String) : List (String × Nat) :=
  if m.any (fun p => p.1 == k) then
    m.map (fun p => if p.1 == k then (p.1, p.2 + 1) else p)
  else m ++ [(k, 1)]

/-- The path bucket of one URL in `analyze_sitemap`
(`sitemap_server.py:126-129`): `path.split('/')`, and when there are at
least two parts, `"/" + parts[1]` (or `"/"` when `parts[1]` is empty);
otherwise the URL contributes nothing to `paths`. -/
def pathBucketOf (u : String) : Option String :=
  match splitOnChar '/' (pyUrlparse u).path.toList with
  | _ :: p1 :: _ => some (if p1 = [] then "/" else String.mk ('/' :: p1))
  | _ => none

/-- The extension bucket of one URL in `analyze_sitemap`
(`sitemap_server.py:132-134`): when `'.' in path`,
`path.split('.')[-1].lower()`. -/
def extBucketOf (u : String) : Option String :=
  let p := (pyUrlparse u).path.toList
  if '.' ∈ p then some (String.mk (lowerChars (lastOr [] (splitOnChar '.' p))))
  else none

/-- Per-URL statistics accumulation of `analyze_sitemap`
(`sitemap_server.py:118-134`): domain counted always, path bucket and
extension bucket counted when present. -/
structure RawStats where
  domains : List (String × Nat)
  paths : List (String × Nat)
  exts : List (String × Nat)
deriving Repr, DecidableEq

def stepUrl (st : RawStats) (u : String) : RawStats :=
  let st1 : RawStats := { st with domains := bump st.domains (pyUrlparse u).netloc }
  let st2 : RawStats :=
    match pathBucketOf u with
    | some b => { st1 with paths := bump st1.paths b }
    | none => st1
  match extBucketOf u with
  | some e => { st2 with exts := bump st2.exts e }
  | none => st2

def rawStats (urls : List String) : RawStats := urls.foldl stepUrl ⟨[], [], []⟩

structure SitemapAnalysis where
  total_urls : Nat
  unique_domains : Nat
  domain_distribution : List (String × Nat)
  path_patterns : List (String × Nat)
  file_extensions : List (String × Nat)
deriving Repr, DecidableEq

def cntKey (p : String × Nat) : Int := (p.2 : Int)

/-- The statistics part of the `analyze_sitemap` tool
(`sitemap_server.py:136-145`): `domain_distribution` and `path_patterns`
are `sorted(items, key=count, reverse=True)[:10]`; `file_extensions` is
sorted the same way but NOT truncated (line 142 has no `[:10]`). -/
def analyze_sitemap_stats (urls : List String) : SitemapAnalysis :=
  let rs := rawStats urls
  ⟨urls.length, rs.domains.length,
   (sortDescBy cntKey rs.domains).take 10,
   (sortDescBy cntKey rs.paths).take 10,
   sortDescBy cntKey rs.exts⟩

-- `splitOnChar` facts used by the bucket characterizations.

theorem splitOnChar_ne_nil (c : Char) (l : List Char) : splitOnChar c l ≠ [] := by
  cases l with
  | nil => simp [splitOnChar]
  | cons x xs =>
    by_cases h : x = c
    · simp [splitOnChar, h]
    · simp only [splitOnChar, if_neg h]
      cases hr : splitOnChar c xs <;> simp

theorem splitOnChar_of_not_mem {c : Char} {l : List Char} (h : c ∉ l) :
    splitOnChar c l = [l] := by
  induction l with
  | nil => rfl
  | cons x xs ih =>
    have hx : ¬ x = c := fun he => h (he ▸ List.mem_cons_self x xs)
    have hxs : c ∉ xs := fun hm => h (List.mem_cons_of_mem x hm)
    simp [splitOnChar, hx, ih hxs]

theorem splitOnChar_append {c : Char} {a : List Char} (b : List Char) (h : c ∉ a) :
    splitOnChar c (a ++ c :: b) = a :: splitOnChar c b := by
  induction a with
  | nil => simp [splitOnChar]
  | cons x xs ih =>
    have hx : ¬ x = c := fun he => h (he ▸ List.mem_cons_self x xs)
    have hxs : c ∉ xs := fun hm => h (List.mem_cons_of_mem x hm)
    simp [splitOnChar, hx, ih hxs]

theorem splitOnChar_two_le (c : Char) (a b : List Char) :
    2 ≤ (splitOnChar c (a ++ c :: b)).length := by
  induction a with
  | nil =>
    simp only [List.nil_append, splitOnChar, if_pos rfl]
    cases hr : splitOnChar c b with
    | nil => exact absurd hr (splitOnChar_ne_nil c b)
    | cons h t => simp
  | cons x xs ih =>
    simp only [List.cons_append, splitOnChar]
    by_cases hx : x = c
    · rw [if_pos hx]
      cases hr : splitOnChar c (xs ++ c :: b) with
      | nil => exact absurd hr (splitOnChar_ne_nil c _)
      | cons h t => simp
    · rw [if_neg hx]
      cases hr : splitOnChar c (xs ++ c :: b) with
      | nil => exact absurd hr (splitOnChar_ne_nil c _)
      | cons h t =>
        rw [hr] at ih
        simp only [List.length_cons] at ih
        simp only [List.length_cons]
        omega

theorem lastOr_cons_of_ne (d : List Char) (h : List Char) {r : List (List Char)}
    (hr : r ≠ []) : lastOr d (h :: r) = lastOr d r := by
  cases r with
  | nil => exact absurd rfl hr
  | cons x xs => rfl

theorem lastOr_splitOnChar_append (c : Char) (a b : List Char) :
    lastOr [] (splitOnChar c (a ++ c :: b)) = lastOr [] (splitOnChar c b) := by
  induction a with
  | nil =>
    rw [List.nil_append]
    have he : splitOnChar c (c :: b) = [] :: splitOnChar c b := by simp [splitOnChar]
    rw [he, lastOr_cons_of_ne _ _ (splitOnChar_ne_nil c b)]
  | cons x xs ih =>
    by_cases hx : x = c
    · subst hx
      have he : splitOnChar x ((x :: xs) ++ x :: b)
          = [] :: splitOnChar x (xs ++ x :: b) := by simp [splitOnChar]
      rw [he, lastOr_cons_of_ne _ _ (splitOnChar_ne_nil x _), ih]
    · rw [List.cons_append]
      cases hr : splitOnChar c (xs ++ c :: b) with
      | nil => exact absurd hr (splitOnChar_ne_nil c _)
      | cons h t =>
        have h2 := splitOnChar_two_le c xs b
        rw [hr] at h2
        have ht : t ≠ [] := by
          cases t with
          | nil => simp at h2
          | cons t1 t2 => simp
        have he : splitOnChar c (x :: (xs ++ c :: b)) = (x :: h) :: t := by
          simp [splitOnChar, hx, hr]
        rw [he, lastOr_cons_of_ne _ _ ht]
        rw [hr, lastOr_cons_of_ne _ _ ht] at ih
        exact ih

/-- Claim C6 (counterexample): a location with an empty path
(`urlparse("https://a.com").path == ""`) is not counted at all —
`"".split('/') == ['']` has a single part, so the `len(parts) > 1` guard
fails — whereas the claim requires it to be counted under `"/"`.  Also,
`"//x"` is bucketed under `"/"` (parts[1] is empty), not under its first
non-empty segment. -/
theorem c6_counterexample :
    pathBucketOf "https://a.com" = none ∧
    (analyze_sitemap_stats ["https://a.com"]).path_patterns = [] ∧
    pathBucketOf "https://a.com//x" = some "/" := by
  refine ⟨by decide, by decide, by decide⟩

/-- Claim C6 (amended): the path histogram counts a location under
`"/" + first segment` — the text between the first and second `/` of the
path — or under `"/"` when that segment is empty; a location whose path
contains no `/` at all (in particular the empty path) is not counted.
The extension histogram counts a location under the lowercased text after
the final `.` of the path, and omits it when the path has no `.`. -/
theorem c6_bucket_rules_amended :
    (∀ u : String, '/' ∉ (pyUrlparse u).path.toList → pathBucketOf u = none) ∧
    (∀ (u : String) (pre seg tl : List Char),
      (pyUrlparse u).path.toList = pre ++ '/' :: (seg ++ tl) →
      '/' ∉ pre → '/' ∉ seg → (tl = [] ∨ ∃ t, tl = '/' :: t) →
      pathBucketOf u = some (if seg = [] then "/" else String.mk ('/' :: seg))) ∧
    (∀ u : String, '.' ∉ (pyUrlparse u).path.toList → extBucketOf u = none) ∧
    (∀ (u : String) (a b : List Char),
      (pyUrlparse u).path.toList = a ++ '.' :: b → '.' ∉ b →
      extBucketOf u = some (String.mk (lowerChars b))) := by
  refine ⟨?_, ?_, ?_, ?_⟩
  · intro u hu
    simp only [pathBucketOf, splitOnChar_of_not_mem hu]
  · intro u pre seg tl hpath hpre hseg htl
    simp only [pathBucketOf, hpath, splitOnChar_append _ hpre]
    rcases htl with rfl | ⟨t, rfl⟩
    · rw [List.append_nil, splitOnChar_of_not_mem hseg]
    · rw [splitOnChar_append _ hseg]
  · intro u hu
    simp only [extBucketOf, if_neg hu]
  · intro u a b hpath hb
    simp only [extBucketOf, hpath, lastOr_splitOnChar_append,
      splitOnChar_of_not_mem hb]
    rw [if_pos (by simp : ('.' : Char) ∈ a ++ '.' :: b)]
    rfl

/-- Witness for `c6_bucket_rules_amended` at concrete locations. -/
theorem c6_bucket_rules_amended_witness :
    pathBucketOf "https://a.com/blog/post.HTML" = some "/blog" ∧
    extBucketOf "https://a.com/blog/post.HTML" = some "html" ∧
    pathBucketOf "https://a.com/about" = some "/about" ∧
    extBucketOf "https://a.com/about" = none := by
  refine ⟨?_, ?_, ?_, ?_⟩
  · have h := c6_bucket_rules_amended.2.1 "https://a.com/blog/post.HTML"
      [] "blog".toList "/post.HTML".toList (by decide) (by decide) (by decide)
      (Or.inr ⟨"post.HTML".toList, rfl⟩)
    exact h.trans (by decide)
  · have h := c6_bucket_rules_amended.2.2.2 "https://a.com/blog/post.HTML"
      "/blog/post".toList "HTML".toList (by decide) (by decide)
    exact h.trans (by decide)
  · have h := c6_bucket_rules_amended.2.1 "https://a.com/about"
      [] "about".toList [] (by decide) (by decide) (by decide) (Or.inl rfl)
    exact h.trans (by decide)
  · exact c6_bucket_rules_amended.2.2.1 "https://a.com/about" (by decide)

/-- Claim C5 (counterexample): `file_extensions` is not truncated to 10
entries — `analyze_sitemap` sorts it without the `[:10]` slice
(`sitemap_server.py:142`), so 11 distinct extensions produce 11 entries. -/
theorem c5_counterexample :
    ((analyze_sitemap_stats
      ["https://a.com/f.e00", "https://a.com/f.e01", "https://a.com/f.e02",
       "https://a.com/f.e03", "https://a.com/f.e04", "https://a.com/f.e05",
       "https://a.com/f.e06", "https://a.com/f.e07", "https://a.com/f.e08",
       "https://a.com/f.e09", "https://a.com/f.e10"]).file_extensions).length
      = 11 := by decide

/-- Claim C5 (amended): `domain_distribution` and `path_patterns` each hold
at most 10 entries — the top 10 by descending count, ties kept in first
encounter (insertion) order, stated via a sorted stable permutation of the
raw counters; `file_extensions` is the FULL extension counter sorted the
same way, with no truncation. -/
theorem c5_distributions_amended (urls : List String) :
    (analyze_sitemap_stats urls).domain_distribution.length ≤ 10 ∧
    (analyze_sitemap_stats urls).path_patterns.length ≤ 10 ∧
    (List.Perm (analyze_sitemap_stats urls).file_extensions (rawStats urls).exts ∧
      (analyze_sitemap_stats urls).file_extensions.Pairwise
        (fun a b => cntKey b ≤ cntKey a) ∧
      ∀ n : Int, (analyze_sitemap_stats urls).file_extensions.filter
          (fun p => cntKey p == n)
        = (rawStats urls).exts.filter (fun p => cntKey p == n)) ∧
    (∃ L, List.Perm L ((rawStats urls).domains) ∧
      L.Pairwise (fun a b => cntKey b ≤ cntKey a) ∧
      (∀ n : Int, L.filter (fun p => cntKey p == n)
        = (rawStats urls).domains.filter (fun p => cntKey p == n)) ∧
      (analyze_sitemap_stats urls).domain_distribution = L.take 10) ∧
    (∃ L, List.Perm L ((rawStats urls).paths) ∧
      L.Pairwise (fun a b => cntKey b ≤ cntKey a) ∧
      (∀ n : Int, L.filter (fun p => cntKey p == n)
        = (rawStats urls).paths.filter (fun p => cntKey p == n)) ∧
      (analyze_sitemap_stats urls).path_patterns = L.take 10) := by
  refine ⟨?_, ?_, ⟨?_, ?_, ?_⟩, ?_, ?_⟩
  · simp only [analyze_sitemap_stats]
    exact List.length_take_le _ _
  · simp only [analyze_sitemap_stats]
    exact List.length_take_le _ _
  · simp only [analyze_sitemap_stats]
    exact sortDescBy_perm cntKey _
  · simp only [analyze_sitemap_stats]
    exact sortDescBy_sorted cntKey _
  · intro n
    simp only [analyze_sitemap_stats]
    exact sortDescBy_filter cntKey _ n
  · exact ⟨sortDescBy cntKey (rawStats urls).domains,
      sortDescBy_perm cntKey _, sortDescBy_sorted cntKey _,
      fun n => sortDescBy_filter cntKey _ n, rfl⟩
  · exact ⟨sortDescBy cntKey (rawStats urls).paths,
      sortDescBy_perm cntKey _, sortDescBy_sorted cntKey _,
      fun n => sortDescBy_filter cntKey _ n, rfl⟩

/-
Protocol Validator: `validate_sitemap` (`sitemap_server.py:150-220`).
The distinct issue/warning message strings are modelled as tags (the
messages also carry formatted numbers; the claims only speak about which
checks append entries).  `validate_sitemap_core` takes the already
extracted URL list, the payload size in bytes (`len(response.content)`)
and the detected sitemap type, exactly the data lines 170-211 consume.
-/

inductive VIssue where
  | countLimit (n : Nat)
  | sizeLimit
  | urlTooLong (i : Nat)
  | badProtocol (i : Nat)
  | unknownFormat
deriving Repr, DecidableEq

inductive VWarning where
  | largeFile
deriving Repr, DecidableEq

/-- Python `s.startswith(pre)`. -/
def startsWithStr (s pre : String) : Bool := leadsWith pre.toList s.toList

/-- The per-URL format checks of the `for i, url_item in enumerate(urls[:100])`
loop body (`sitemap_server.py:186-190`): a length issue, then a protocol
issue, each referring to the 1-based position `i+1`. -/
def entryIssues (i : Nat) (u : String) : List VIssue :=
  (if u.length > 2048 then [VIssue.urlTooLong (i + 1)] else []) ++
  (if !(startsWithStr u "http://" || startsWithStr u "https://") then
     [VIssue.badProtocol (i + 1)]
   else [])

/-- `invalid_urls` after the loop over `urls[:100]` (`sitemap_server.py:185-190`). -/
def formatIssuesOf (urls : List String) : List VIssue :=
  ((urls.take 100).enum.map (fun p => entryIssues p.1 p.2)).flatten

structure ValidationReport where
  is_valid : Bool
  total_urls : Nat
  issues : List VIssue
  warnings : List VWarning
deriving Repr, DecidableEq

/-- `validate_sitemap` checks (`sitemap_server.py:170-211`): count limit,
size limit (`elif` warning band), first-5 format issues, unknown-format
issue; `is_valid` is emptiness of the issues list. -/
def validate_sitemap_core (urls : List String) (contentSize : Nat) (stype : String) :
    ValidationReport :=
  let countIssues := if urls.length > 50000 then [VIssue.countLimit urls.length] else []
  let sizeIssues := if contentSize > 50 * 1024 * 1024 then [VIssue.sizeLimit] else []
  let warns : List VWarning :=
    if contentSize > 50 * 1024 * 1024 then []
    else if contentSize > 10 * 1024 * 1024 then [VWarning.largeFile] else []
  let issues := countIssues ++ sizeIssues ++ (formatIssuesOf urls).take 5 ++
    (if stype == "unknown" then [VIssue.unknownFormat] else [])
  ⟨issues.isEmpty, urls.length, issues, warns⟩

def isFormatIssue : VIssue → Bool
  | .urlTooLong _ => true
  | .badProtocol _ => true
  | _ => false

theorem mem_ite_singleton {α : Type} {P : Prop} [Decidable P] {x v : α}
    (h : x ∈ (if P then [v] else [])) : x = v ∧ P := by
  by_cases hp : P
  · rw [if_pos hp] at h
    exact ⟨by simpa using h, hp⟩
  · rw [if_neg hp] at h
    simp at h

theorem mem_entryIssues {x : VIssue} {i : Nat} {u : String} (h : x ∈ entryIssues i u) :
    x = .urlTooLong (i + 1) ∨ x = .badProtocol (i + 1) := by
  simp only [entryIssues, List.mem_append] at h
  rcases h with h | h
  · exact Or.inl (mem_ite_singleton h).1
  · exact Or.inr (mem_ite_singleton h).1

theorem mem_enumFrom_bound {α : Type} {p : Nat × α} :
    ∀ (l : List α) (n : Nat), p ∈ l.enumFrom n → n ≤ p.1 ∧ p.1 < n + l.length := by
  intro l
  induction l with
  | nil => intro n h; simp [List.enumFrom] at h
  | cons x xs ih =>
    intro n h
    simp only [List.enumFrom, List.mem_cons] at h
    rcases h with rfl | h
    · simp
    · have := ih (n + 1) h
      simp only [List.length_cons]
      omega

theorem formatIssuesOf_mem {x : VIssue} {urls : List String}
    (h : x ∈ formatIssuesOf urls) :
    ∃ i, i < 100 ∧ (x = .urlTooLong (i + 1) ∨ x = .badProtocol (i + 1)) := by
  simp only [formatIssuesOf, List.mem_flatten, List.mem_map] at h
  obtain ⟨l, ⟨p, hp, rfl⟩, hx⟩ := h
  refine ⟨p.1, ?_, mem_entryIssues hx⟩
  have hb := mem_enumFrom_bound (urls.take 100) 0 (by simpa [List.enum] using hp)
  have hlen : (urls.take 100).length ≤ 100 := List.length_take_le _ _
  omega

theorem formatIssuesOf_not_format {x : VIssue} {urls : List String}
    (hx : isFormatIssue x = false) : x ∉ formatIssuesOf urls := by
  intro h
  obtain ⟨i, _, hi | hi⟩ := formatIssuesOf_mem h <;> subst hi <;> simp [isFormatIssue] at hx

/-- Where each member of the issues list can come from, together with the
condition that put it there. -/
theorem validate_issues_mem {urls : List String} {contentSize : Nat} {stype : String}
    {x : VIssue} (hx : x ∈ (validate_sitemap_core urls contentSize stype).issues) :
    (x = VIssue.countLimit urls.length ∧ urls.length > 50000) ∨
    (x = VIssue.sizeLimit ∧ contentSize > 50 * 1024 * 1024) ∨
    (x = VIssue.unknownFormat ∧ stype = "unknown") ∨
    x ∈ formatIssuesOf urls := by
  simp only [validate_sitemap_core, List.mem_append] at hx
  rcases hx with ((h | h) | h) | h
  · exact Or.inl (mem_ite_singleton h)
  · exact Or.inr (Or.inl (mem_ite_singleton h))
  · exact Or.inr (Or.inr (Or.inr (List.mem_of_mem_take h)))
  · have := mem_ite_singleton h
    exact Or.inr (Or.inr (Or.inl ⟨this.1, by simpa using this.2⟩))

/-- Claim C7: the validator's thresholds — a record count above 50,000
appends the count issue; a payload above 50 MiB appends the size issue;
a payload in the (10 MiB, 50 MiB] band appends the warning and no size
issue; validity is emptiness of the issues list. -/
theorem c7_validate_thresholds (urls : List String) (contentSize : Nat) (stype : String) :
    (urls.length > 50000 →
      VIssue.countLimit urls.length ∈ (validate_sitemap_core urls contentSize stype).issues) ∧
    (contentSize > 50 * 1024 * 1024 →
      VIssue.sizeLimit ∈ (validate_sitemap_core urls contentSize stype).issues) ∧
    (10 * 1024 * 1024 < contentSize → contentSize ≤ 50 * 1024 * 1024 →
      VWarning.largeFile ∈ (validate_sitemap_core urls contentSize stype).warnings ∧
      VIssue.sizeLimit ∉ (validate_sitemap_core urls contentSize stype).issues) ∧
    ((validate_sitemap_core urls contentSize stype).is_valid = true ↔
      (validate_sitemap_core urls contentSize stype).issues = []) := by
  refine ⟨?_, ?_, ?_, ?_⟩
  · intro h
    simp only [validate_sitemap_core, List.mem_append]
    left; left; left
    rw [if_pos h]
    simp
  · intro h
    simp only [validate_sitemap_core, List.mem_append]
    left; left; right
    rw [if_pos h]
    simp
  · intro h1 h2
    constructor
    · simp only [validate_sitemap_core]
      rw [if_neg (by omega), if_pos h1]
      simp
    · intro hx
      rcases validate_issues_mem hx with ⟨he, _⟩ | ⟨_, hc⟩ | ⟨he, _⟩ | hmem
      · exact absurd he (by simp)
      · omega
      · exact absurd he (by simp)
      · exact formatIssuesOf_not_format (by simp [isFormatIssue]) hmem
  · simp only [validate_sitemap_core]
    exact List.isEmpty_iff

/-- Witness for `c7_validate_thresholds`, realizing the spec's own test
vector: 50,001 records trigger the count issue, a 50.5 MiB payload the size
issue, a 10.5 MiB payload the warning but no size issue. -/
theorem c7_validate_thresholds_witness :
    VIssue.countLimit 50001 ∈
      (validate_sitemap_core (List.replicate 50001 "https://a.com/x") 1000
        "standard_sitemap").issues ∧
    VIssue.sizeLimit ∈
      (validate_sitemap_core ["https://a.com/x"] 52953088 "standard_sitemap").issues ∧
    (VWarning.largeFile ∈
      (validate_sitemap_core ["https://a.com/x"] 11010048 "standard_sitemap").warnings ∧
     VIssue.sizeLimit ∉
      (validate_sitemap_core ["https://a.com/x"] 11010048 "standard_sitemap").issues) ∧
    ((validate_sitemap_core ["https://a.com/x"] 1000 "standard_sitemap").is_valid = true ↔
     (validate_sitemap_core ["https://a.com/x"] 1000 "standard_sitemap").issues = []) := by
  refine ⟨?_, ?_, ?_, ?_⟩
  · have h := (c7_validate_thresholds (List.replicate 50001 "https://a.com/x") 1000
      "standard_sitemap").1 (by rw [List.length_replicate]; omega)
    rwa [List.length_replicate] at h
  · exact (c7_validate_thresholds _ _ _).2.1 (by norm_num)
  · exact (c7_validate_thresholds _ _ _).2.2.1 (by norm_num) (by norm_num)
  · exact (c7_validate_thresholds _ _ _).2.2.2

/-- Claim C8: the per-URL format checks inspect only the first 100 records
(the issue list is unchanged by anything beyond them), at most 5 format
issues are retained, and every retained format issue names a 1-based
position in 1..100 — so a malformed location at position 101 or later never
appears. -/
theorem c8_format_checks (urls : List String) (contentSize : Nat) (stype : String) :
    formatIssuesOf urls = formatIssuesOf (urls.take 100) ∧
    (validate_sitemap_core urls contentSize stype).issues.countP isFormatIssue ≤ 5 ∧
    (∀ i : Nat,
      (VIssue.urlTooLong i ∈ (validate_sitemap_core urls contentSize stype).issues ∨
       VIssue.badProtocol i ∈ (validate_sitemap_core urls contentSize stype).issues) →
      1 ≤ i ∧ i ≤ 100) := by
  refine ⟨?_, ?_, ?_⟩
  · simp [formatIssuesOf, List.take_take]
  · simp only [validate_sitemap_core, List.countP_append]
    have h5 : ((formatIssuesOf urls).take 5).countP isFormatIssue ≤ 5 :=
      le_trans (List.countP_le_length _) (List.length_take_le _ _)
    have hc : (if urls.length > 50000 then [VIssue.countLimit urls.length]
        else []).countP isFormatIssue = 0 := by
      split <;> simp [List.countP_cons, isFormatIssue]
    have hs : (if contentSize > 50 * 1024 * 1024 then [VIssue.sizeLimit]
        else []).countP isFormatIssue = 0 := by
      split <;> simp [List.countP_cons, isFormatIssue]
    have hu : (if stype == "unknown" then [VIssue.unknownFormat]
        else []).countP isFormatIssue = 0 := by
      split <;> simp [List.countP_cons, isFormatIssue]
    omega
  · intro i h
    have key : ∀ x : VIssue, x ∈ (validate_sitemap_core urls contentSize stype).issues →
        isFormatIssue x = true → ∃ j, j < 100 ∧
          (x = VIssue.urlTooLong (j + 1) ∨ x = VIssue.badProtocol (j + 1)) := by
      intro x hx hfmt
      rcases validate_issues_mem hx with ⟨he, _⟩ | ⟨he, _⟩ | ⟨he, _⟩ | hmem
      · subst he; simp [isFormatIssue] at hfmt
      · subst he; simp [isFormatIssue] at hfmt
      · subst he; simp [isFormatIssue] at hfmt
      · exact formatIssuesOf_mem hmem
    rcases h with h | h
    · obtain ⟨j, hj, he | he⟩ := key _ h (by simp [isFormatIssue])
      · have : i = j + 1 := by injection he
        omega
      · exact absurd he (by simp)
    · obtain ⟨j, hj, he | he⟩ := key _ h (by simp [isFormatIssue])
      · exact absurd he (by simp)
      · have : i = j + 1 := by injection he
        omega

/-- Witness for `c8_format_checks`: a protocol-less location at (1-based)
position 1 yields a retained issue naming a position in 1..100; the same
bad location appended at position 101 leaves the format-issue list exactly
what the first 100 (well-formed) records produce — empty. -/
theorem c8_format_checks_witness :
    formatIssuesOf (List.replicate 100 "https://a.com/x" ++ ["ftp://bad"]) =
      formatIssuesOf ((List.replicate 100 "https://a.com/x" ++ ["ftp://bad"]).take 100) ∧
    (validate_sitemap_core ["ftp://bad"] 0 "standard_sitemap").issues.countP
      isFormatIssue ≤ 5 ∧
    (1 ≤ 1 ∧ 1 ≤ 100) ∧
    VIssue.badProtocol 101 ∉
      (validate_sitemap_core (List.replicate 100 "https://a.com/x" ++ ["ftp://bad"]) 0
        "standard_sitemap").issues :=
  ⟨(c8_format_checks _ 0 "standard_sitemap").1,
   (c8_format_checks _ 0 "standard_sitemap").2.1,
   (c8_format_checks ["ftp://bad"] 0 "standard_sitemap").2.2 1 (Or.inr (by decide)),
   fun h => by
     have := (c8_format_checks (List.replicate 100 "https://a.com/x" ++ ["ftp://bad"]) 0
       "standard_sitemap").2.2 101 (Or.inr h)
     omega⟩

/-
Update-Pattern Analyzer: the date-handling helpers.  Python `datetime`
values are modelled at their native microsecond resolution, as microseconds
on the proleptic-Gregorian wall clock plus an optional UTC offset in
minutes (`None` = offset-naive).  Python refuses to compare or subtract a
naive and an aware datetime (`TypeError`); the code's `try` blocks catch
exactly `(ValueError, TypeError)`.  `fromisoformat` is modelled on the
zero-padded `YYYY-MM-DDTHH[:MM[:SS[.ffffff]]][±HH:MM]` forms (one to six
fractional digits); outside the model's scope: comma decimal separators,
offsets carrying seconds, and basic-format digit-run dates.
-/

structure PyDateTime where
  ts : Int
  off : Option Int
deriving Repr, DecidableEq

/-- Days since 1970-01-01 of a civil date (standard civil-from-days
algorithm, matching Python `datetime`'s proleptic Gregorian ordinals). -/
def daysFromCivil (y m d : Int) : Int :=
  let y2 := if m ≤ 2 then y - 1 else y
  let era := Int.fdiv y2 400
  let yoe := y2 - era * 400
  let mp := if m ≤ 2 then m + 9 else m - 3
  let doy := Int.fdiv (153 * mp + 2) 5 + d - 1
  let doe := yoe * 365 + Int.fdiv yoe 4 - Int.fdiv yoe 100 + doy
  era * 146097 + doe - 719468

def digitsVal (l : List Char) : Nat :=
  l.foldl (fun a c => a * 10 + (c.toNat - 48)) 0

def isLeap (y : Int) : Bool :=
  (Int.emod y 4 == 0 && Int.emod y 100 != 0) || Int.emod y 400 == 0

def daysInMonth (y m : Int) : Int :=
  if m = 2 then (if isLeap y then 29 else 28)
  else if m = 4 ∨ m = 6 ∨ m = 9 ∨ m = 11 then 30
  else 31

/-- `datetime.strptime(s, "%Y-%m-%d")`: three dash-separated digit groups
matching the whole string, with calendar validation.  CPython's `%Y`
pattern is exactly four digits, `%m`/`%d` are one or two. -/
def parseYMD (cs : List Char) : Option (Int × Int × Int) :=
  match splitOnChar '-' cs with
  | [ys, ms, ds] =>
    if ys ≠ [] ∧ ys.length = 4 ∧ ys.all Char.isDigit ∧
       ms ≠ [] ∧ ms.length ≤ 2 ∧ ms.all Char.isDigit ∧
       ds ≠ [] ∧ ds.length ≤ 2 ∧ ds.all Char.isDigit then
      let y : Int := digitsVal ys
      let m : Int := digitsVal ms
      let d : Int := digitsVal ds
      if 1 ≤ y ∧ y ≤ 9999 ∧ 1 ≤ m ∧ m ≤ 12 ∧ 1 ≤ d ∧ d ≤ daysInMonth y m then
        some (y, m, d)
      else none
    else none
  | _ => none

/-- `fromisoformat`'s time part — `HH`, `HH:MM`, `HH:MM:SS` or
`HH:MM:SS.f` with one to six fractional digits (two-digit fields) — as
microseconds of day. -/
def parseTime (cs : List Char) : Option Int :=
  match cs with
  | [h1, h2] =>
    if [h1, h2].all Char.isDigit then
      let h : Int := digitsVal [h1, h2]
      if h ≤ 23 then some (h * 3600000000) else none
    else none
  | [h1, h2, ':', m1, m2] =>
    if [h1, h2, m1, m2].all Char.isDigit then
      let h : Int := digitsVal [h1, h2]
      let m : Int := digitsVal [m1, m2]
      if h ≤ 23 ∧ m ≤ 59 then some (h * 3600000000 + m * 60000000) else none
    else none
  | h1 :: h2 :: ':' :: m1 :: m2 :: ':' :: s1 :: s2 :: rest =>
    if [h1, h2, m1, m2, s1, s2].all Char.isDigit then
      let h : Int := digitsVal [h1, h2]
      let m : Int := digitsVal [m1, m2]
      let s : Int := digitsVal [s1, s2]
      if h ≤ 23 ∧ m ≤ 59 ∧ s ≤ 59 then
        match rest with
        | [] => some (h * 3600000000 + m * 60000000 + s * 1000000)
        | '.' :: frac =>
          if frac ≠ [] ∧ frac.length ≤ 6 ∧ frac.all Char.isDigit then
            some (h * 3600000000 + m * 60000000 + s * 1000000 +
              ((digitsVal frac * 10 ^ (6 - frac.length) : Nat) : Int))
          else none
        | _ => none
      else none
    else none
  | _ => none

/-- `HH:MM` UTC-offset magnitude in minutes. -/
def parseOffset (cs : List Char) : Option Int :=
  match cs with
  | [h1, h2, ':', m1, m2] =>
    if [h1, h2, m1, m2].all Char.isDigit then
      let h : Int := digitsVal [h1, h2]
      let m : Int := digitsVal [m1, m2]
      if h ≤ 23 ∧ m ≤ 59 then some (h * 60 + m) else none
    else none
  | _ => none

/-- `datetime.fromisoformat` on the modelled forms: a zero-padded civil
date, a `T` separator, a time, and an optional signed `HH:MM` offset
(aware result) — no offset gives a naive result. -/
def parseIso (cs : List Char) : Option PyDateTime :=
  match cs with
  | y1 :: y2 :: y3 :: y4 :: '-' :: mo1 :: mo2 :: '-' :: d1 :: d2 :: 'T' :: rest =>
    if [y1, y2, y3, y4, mo1, mo2, d1, d2].all Char.isDigit then
      let y : Int := digitsVal [y1, y2, y3, y4]
      let mo : Int := digitsVal [mo1, mo2]
      let d : Int := digitsVal [d1, d2]
      if 1 ≤ y ∧ y ≤ 9999 ∧ 1 ≤ mo ∧ mo ≤ 12 ∧ 1 ≤ d ∧ d ≤ daysInMonth y mo then
        match splitFirst? '+' rest with
        | some (t, o) => do
          let secs ← parseTime t
          let om ← parseOffset o
          pure ⟨daysFromCivil y mo d * 86400000000 + secs, some om⟩
        | none =>
          match splitFirst? '-' rest with
          | some (t, o) => do
            let secs ← parseTime t
            let om ← parseOffset o
            pure ⟨daysFromCivil y mo d * 86400000000 + secs, some (-om)⟩
          | none => do
            let secs ← parseTime rest
            pure ⟨daysFromCivil y mo d * 86400000000 + secs, none⟩
      else none
    else none
  | _ => none

/-- `lastmod.replace('Z', '+00:00')` — every occurrence, like `str.replace`. -/
def replaceZ (cs : List Char) : List Char :=
  (cs.map (fun c => if c = 'Z' then "+00:00".toList else [c])).flatten

/-- The date-parsing policy (`sitemap_server.py:332-336`, `483-487`,
`518-522`): a value containing `'T'` goes through `fromisoformat` after the
`Z` replacement, otherwise through `strptime('%Y-%m-%d')` (a naive
midnight). -/
def pyParseLastmod (s : String) : Option PyDateTime :=
  let cs := s.toList
  if 'T' ∈ cs then parseIso (replaceZ cs)
  else (parseYMD cs).map (fun ymd => ⟨daysFromCivil ymd.1 ymd.2.1 ymd.2.2 * 86400000000, none⟩)

/-- A URL record as consumed by the analyzers — the string-valued shape of
the spec's data model (§3); `none` is Python `None`, and Python truthiness
also treats the empty string as absent. -/
structure UrlRecord where
  loc : String
  lastmod : Option String
  changefreq : Option String
  priority : Option String
deriving Repr, DecidableEq

def truthy : Option String → Bool
  | none => false
  | some s => !(s == "")

/-- `datetime` comparison: wall clock between naive values, instants
between aware ones, `TypeError` between the two kinds. -/
def cmpDT (a b : PyDateTime) : Except Unit Ordering :=
  match a.off, b.off with
  | none, none => .ok (compare a.ts b.ts)
  | some x, some y => .ok (compare (a.ts - 60000000 * x) (b.ts - 60000000 * y))
  | _, _ => .error ()

/-- `a - b` in seconds for datetimes; mixed naive/aware raises. -/
def subDT (a b : PyDateTime) : Except Unit Int :=
  match a.off, b.off with
  | none, none => .ok (a.ts - b.ts)
  | some x, some y => .ok ((a.ts - 60000000 * x) - (b.ts - 60000000 * y))
  | _, _ => .error ()

/-- The sort key under which Python's datetime order is total on a
uniformly-naive or uniformly-aware collection. -/
def utcKey (dt : PyDateTime) : Int := dt.ts - 60000000 * dt.off.getD 0

/-- The surfaced entry of `_get_recent_updates` (`sitemap_server.py:524-530`,
`lastmod_parsed` stripped at line 540). -/
structure UpdateEntry where
  url : String
  lastmod : String
  changefreq : Option String
  priority : Option String
deriving Repr, DecidableEq

/-- The `updates_with_dates` list (`sitemap_server.py:513-532`): one entry
per record with truthy, parseable `lastmod`, paired with the parsed date
used as the sort key. -/
def recentCandidates (rs : List UrlRecord) : List (UpdateEntry × PyDateTime) :=
  rs.filterMap fun r =>
    match r.lastmod with
    | some s =>
      if s == "" then none
      else (pyParseLastmod s).map
        (fun dt => (⟨r.loc, s, r.changefreq, r.priority⟩, dt))
    | none => none

/-- `_get_recent_updates` (`sitemap_server.py:511-543`).
`updates_with_dates.sort(key=..., reverse=True)` raises `TypeError` as soon
as it compares an offset-naive with an offset-aware datetime — which it
does exactly when the list holds both kinds, since every element is
compared against some earlier one while runs are built; on a uniform list
the datetime order is total and the sort is the stable descending sort by
`utcKey`, truncated to `limit`, with the parsed key stripped. -/
def get_recent_updates (rs : List UrlRecord) (limit : Nat) :
    Except Unit (List UpdateEntry) :=
  let cands := recentCandidates rs
  if (cands.any fun c => c.2.off.isSome) && (cands.any fun c => c.2.off.isNone) then
    .error ()
  else
    .ok (((sortDescBy (fun c => utcKey c.2) cands).take limit).map (·.1))

/-- How `analyze_update_patterns` surfaces the feed
(`sitemap_server.py:305` and `364`): computed with `limit=50`, truncated
again to 20 in the result. -/
def analyze_recent_updates_field (rs : List UrlRecord) :
    Except Unit (List UpdateEntry) :=
  Except.map (fun l => l.take 20) (get_recent_updates rs 50)

/-- Claim C3 (counterexample): a sequence mixing a bare date (parsed
offset-naive) with a `...T...Z` timestamp (parsed offset-aware) makes the
sort in `_get_recent_updates` raise `TypeError` (offset-naive and
offset-aware datetimes cannot be compared) instead of returning the sorted
records the claim promises for every URL-record sequence. -/
theorem c3_counterexample :
    get_recent_updates
      [⟨"https://a.com/1", some "2024-01-01", none, none⟩,
       ⟨"https://a.com/2", some "2024-01-02T00:00:00Z", none, none⟩] 50 =
      .error () := rfl

/-- Claim C3 (amended): for every URL-record sequence whose parseable
`lastmod` values are uniformly offset-naive or uniformly offset-aware,
`_get_recent_updates` returns exactly the records with a truthy, parseable
`last_modified` value (parsing policy: `'T'` → ISO-8601 with trailing `Z`
as `+00:00`, otherwise `YYYY-MM-DD`), sorted descending by the parsed date
with ties keeping input order (stable sort, stated by the filter
characterization), truncated to the limit; `analyze_update_patterns` uses
limit 50 and re-truncates the surfaced list to 20.  On mixed sequences the
sort raises `TypeError` (see `c3_counterexample`). -/
theorem c3_recent_updates_amended :
    (∀ (rs : List UrlRecord) (limit : Nat),
      ((((recentCandidates rs).any fun c => c.2.off.isSome) &&
        ((recentCandidates rs).any fun c => c.2.off.isNone)) = false) →
      get_recent_updates rs limit =
        .ok (((sortDescBy (fun c => utcKey c.2) (recentCandidates rs)).take
          limit).map (·.1)) ∧
      List.Perm (sortDescBy (fun c => utcKey c.2) (recentCandidates rs))
        (recentCandidates rs) ∧
      (sortDescBy (fun c => utcKey c.2) (recentCandidates rs)).Pairwise
        (fun a b => utcKey b.2 ≤ utcKey a.2) ∧
      (∀ k : Int,
        (sortDescBy (fun c => utcKey c.2) (recentCandidates rs)).filter
            (fun c => utcKey c.2 == k)
          = (recentCandidates rs).filter (fun c => utcKey c.2 == k))) ∧
    (∀ rs : List UrlRecord, analyze_recent_updates_field rs =
      Except.map (fun l => l.take 20) (get_recent_updates rs 50)) ∧
    get_recent_updates
      [⟨"https://a.com/a", some "2024-01-01", none, none⟩,
       ⟨"https://a.com/b", some "2024-01-03", none, none⟩,
       ⟨"https://a.com/c", some "2024-01-02", none, none⟩] 50 =
      .ok [⟨"https://a.com/b", "2024-01-03", none, none⟩,
           ⟨"https://a.com/c", "2024-01-02", none, none⟩,
           ⟨"https://a.com/a", "2024-01-01", none, none⟩] ∧
    get_recent_updates
      [⟨"https://a.com/a", none, none, none⟩,
       ⟨"https://a.com/b", some "2024-01-01", none, none⟩,
       ⟨"https://a.com/c", none, none, none⟩] 10 =
      .ok [⟨"https://a.com/b", "2024-01-01", none, none⟩] := by
  refine ⟨?_, ?_, rfl, rfl⟩
  · intro rs limit h
    refine ⟨?_, sortDescBy_perm _ _, sortDescBy_sorted _ _,
      fun k => sortDescBy_filter _ _ k⟩
    simp [get_recent_updates, h]
  · intro rs; rfl

/-- Witness for `c3_recent_updates_amended` at the spec's three-record
example (uniformly naive dates). -/
theorem c3_recent_updates_amended_witness :
    get_recent_updates
      [⟨"https://a.com/a", some "2024-01-01", none, none⟩,
       ⟨"https://a.com/b", some "2024-01-03", none, none⟩,
       ⟨"https://a.com/c", some "2024-01-02", none, none⟩] 50 =
      .ok (((sortDescBy (fun c => utcKey c.2) (recentCandidates
        [⟨"https://a.com/a", some "2024-01-01", none, none⟩,
         ⟨"https://a.com/b", some "2024-01-03", none, none⟩,
         ⟨"https://a.com/c", some "2024-01-02", none, none⟩])).take 50).map (·.1)) ∧
    List.Perm
      (sortDescBy (fun c => utcKey c.2) (recentCandidates
        [⟨"https://a.com/a", some "2024-01-01", none, none⟩,
         ⟨"https://a.com/b", some "2024-01-03", none, none⟩,
         ⟨"https://a.com/c", some "2024-01-02", none, none⟩]))
      (recentCandidates
        [⟨"https://a.com/a", some "2024-01-01", none, none⟩,
         ⟨"https://a.com/b", some "2024-01-03", none, none⟩,
         ⟨"https://a.com/c", some "2024-01-02", none, none⟩]) :=
  ⟨((c3_recent_updates_amended.1 _ 50 (by decide)).1),
   ((c3_recent_updates_amended.1 _ 50 (by decide)).2.1)⟩

structure LastmodStats where
  total : Nat
  earliest : Option PyDateTime
  latest : Option PyDateTime
  recent7 : Nat
  recent30 : Nat
deriving Repr, DecidableEq

structure UpdatePatterns where
  changefreqDist : List (String × Nat)
  priorityDist : List (String × Nat)
  lastmod : LastmodStats
deriving Repr, DecidableEq

/-- `if not earliest or lastmod_date < earliest` (`sitemap_server.py:490-491`);
the boolean reports whether the comparison raised (aborting the rest of the
record's `try` block with the state kept as is). -/
def updEarliest (dt : PyDateTime) (st : LastmodStats) : LastmodStats × Bool :=
  match st.earliest with
  | none => ({ st with earliest := some dt }, true)
  | some e0 =>
    match cmpDT dt e0 with
    | .ok o => ({ st with earliest := if o = Ordering.lt then some dt else some e0 }, true)
    | .error _ => (st, false)

/-- `if not latest or lastmod_date > latest` (`sitemap_server.py:492-493`). -/
def updLatest (dt : PyDateTime) (st : LastmodStats) : LastmodStats × Bool :=
  match st.latest with
  | none => ({ st with latest := some dt }, true)
  | some l0 =>
    match cmpDT dt l0 with
    | .ok o => ({ st with latest := if o = Ordering.gt then some dt else some l0 }, true)
    | .error _ => (st, false)

/-- `days_diff = (now - lastmod_date).days` and the two recency bumps
(`sitemap_server.py:496-500`); `timedelta.days` floors, and the
subtraction raises on mixed naive/aware operands. -/
def updRecent (now dt : PyDateTime) (st : LastmodStats) : LastmodStats :=
  match subDT now dt with
  | .error _ => st
  | .ok diff =>
    let days := Int.fdiv diff 86400000000
    let st3 : LastmodStats :=
      if days ≤ 7 then { st with recent7 := st.recent7 + 1 } else st
    if days ≤ 30 then { st3 with recent30 := st3.recent30 + 1 } else st3

/-- The body of the `try` block for a parsed date
(`sitemap_server.py:489-503`): the steps run in order and a raised
`TypeError` is caught, keeping the updates already performed. -/
def stepLastmodParsed (now dt : PyDateTime) (st : LastmodStats) : LastmodStats :=
  match updEarliest dt st with
  | (st1, false) => st1
  | (st1, true) =>
    match updLatest dt st1 with
    | (st2, false) => st2
    | (st2, true) => updRecent now dt st2

/-- `f"{n / 10:.1f}"` for the small integers `n = int(float(p) * 10)`. -/
def bucketLabel (n : Int) : String :=
  (if n < 0 then "-" else "") ++ toString (n.natAbs / 10) ++ "." ++ toString (n.natAbs % 10)

/-- An exact fraction `n / d`: the value of a float literal before
rounding, and the exact value of a finite binary64 double after. -/
structure RawQ where
  n : Int
  d : Nat
deriving Repr, DecidableEq

/-- The ASCII whitespace `float()` strips from both ends of its argument
(CPython additionally strips a few Unicode space characters and maps
Unicode digits, outside this model's scope). -/
def isPyWs (c : Char) : Bool :=
  c == ' ' || c == '\t' || c == '\n' || c == '\r' || c == '\x0b' || c == '\x0c'

/-- One underscore-grouped digit run (PEP 515): each `_` must sit between
two digits. Returns the value and the number of digits consumed. -/
def digitsGroupGo : Nat → Nat → List Char → Option (Nat × Nat)
  | acc, k, [] => some (acc, k)
  | acc, k, '_' :: c :: cs =>
    if c.isDigit then digitsGroupGo (acc * 10 + (c.toNat - 48)) (k + 1) cs else none
  | _, _, ['_'] => none
  | acc, k, c :: cs =>
    if c.isDigit then digitsGroupGo (acc * 10 + (c.toNat - 48)) (k + 1) cs else none

/-- A nonempty digit run that neither starts nor ends with `_`. -/
def digitsGroup? (cs : List Char) : Option (Nat × Nat) :=
  match cs with
  | [] => none
  | '_' :: _ => none
  | _ => digitsGroupGo 0 0 cs

/-- The mantissa of a float literal — `d+`, `d+.`, `.d+` or `d+.d+`, each
digit run underscore-grouped — as an exact fraction. -/
def mantissa? (cs : List Char) : Option RawQ :=
  match splitFirst? '.' cs with
  | none => (digitsGroup? cs).map (fun a => ⟨(a.1 : Int), 1⟩)
  | some (ip, fp) =>
    match ip, fp with
    | [], [] => none
    | [], _ => (digitsGroup? fp).map (fun f => ⟨(f.1 : Int), 10 ^ f.2⟩)
    | _, [] => (digitsGroup? ip).map (fun a => ⟨(a.1 : Int), 1⟩)
    | _, _ =>
      match digitsGroup? ip, digitsGroup? fp with
      | some a, some f => some ⟨((a.1 * 10 ^ f.2 + f.1 : Nat) : Int), 10 ^ f.2⟩
      | _, _ => none

/-- The exponent written after `e`: an optional sign, then a digit run. -/
def expPart? (cs : List Char) : Option Int :=
  match cs with
  | '+' :: r => (digitsGroup? r).map (fun p => (p.1 : Int))
  | '-' :: r => (digitsGroup? r).map (fun p => -(p.1 : Int))
  | r => (digitsGroup? r).map (fun p => (p.1 : Int))

/-- CPython `float(s)` literal acceptance, yielding the literal's exact
value: surrounding whitespace is stripped, then an optional sign, a
mantissa and an optional `e`/`E` exponent with its own optional sign.
The spellings `inf`, `infinity` and `nan` are outside the model: they
produce non-finite floats, for which the analyzer's later `int()` raises
`ValueError` (`nan`; caught, so equivalent to `none` here) or an uncaught
`OverflowError` (an infinity). -/
def floatLit? (s : String) : Option RawQ :=
  let cs0 := (s.toList.map (fun c => if c = 'E' then 'e' else c)).dropWhile isPyWs
  let cs := (cs0.reverse.dropWhile isPyWs).reverse
  let sc : Int × List Char :=
    match cs with
    | '+' :: r => (1, r)
    | '-' :: r => (-1, r)
    | r => (1, r)
  match splitFirst? 'e' sc.2 with
  | none => (mantissa? sc.2).map (fun m => ⟨sc.1 * m.n, m.d⟩)
  | some (mcs, ecs) =>
    match mantissa? mcs, expPart? ecs with
    | some m, some ex =>
      if 0 ≤ ex then some ⟨sc.1 * m.n * 10 ^ ex.toNat, m.d⟩
      else some ⟨sc.1 * m.n, m.d * 10 ^ (-ex).toNat⟩
    | _, _ => none

/-- `log2fuel f n` is `⌊log2 n⌋` whenever `f` halvings from `n` reach 1,
which `f = n` always grants. -/
def log2fuel : Nat → Nat → Nat
  | 0, _ => 0
  | f + 1, n => if n ≤ 1 then 0 else log2fuel f (n / 2) + 1

def natLog2 (n : Nat) : Nat := log2fuel n n

/-- Does `2 ^ e ≤ a / d` hold (for `d ≠ 0`), decided over ℕ. -/
def pow2Le (e : Int) (a d : Nat) : Bool :=
  if 0 ≤ e then decide (2 ^ e.toNat * d ≤ a) else decide (d ≤ 2 ^ (-e).toNat * a)

/-- Round the exact fraction `r` to the nearest IEEE-754 binary64 value
(ties to even), returned as an exact fraction: the multiple of `2 ^ g`
nearest to `r`, where `g = max (e - 52) (-1074)` and
`2 ^ e ≤ |r| < 2 ^ (e + 1)` — 53 bits of precision with gradual
underflow. `none` past the finite range (`≥ 2 ^ 1024` in magnitude),
where Python's arithmetic yields an infinity: the analyzer's later
`int()` on such a value raises an uncaught `OverflowError`, outside this
model's scope. -/
def roundDouble (r : RawQ) : Option RawQ :=
  if r.d = 0 then none
  else if r.n = 0 then some ⟨0, 1⟩
  else
    let a := r.n.natAbs
    let e0 : Int := (natLog2 a : Int) - (natLog2 r.d : Int)
    let e : Int :=
      if pow2Le (e0 + 1) a r.d then e0 + 1
      else if pow2Le e0 a r.d then e0 else e0 - 1
    let g : Int := max (e - 52) (-1074)
    let N := if 0 ≤ g then a else a * 2 ^ (-g).toNat
    let D := if 0 ≤ g then r.d * 2 ^ g.toNat else r.d
    let m0 := N / D
    let m := if D < 2 * (N % D) ∨ (2 * (N % D) = D ∧ m0 % 2 = 1) then m0 + 1 else m0
    if (1024 : Int) ≤ g ∨ 2 ^ (1024 - g).toNat ≤ m then none
    else
      let sg : Int := if r.n < 0 then -1 else 1
      if 0 ≤ g then some ⟨sg * (m * 2 ^ g.toNat : Nat), 1⟩
      else some ⟨sg * (m : Nat), 2 ^ (-g).toNat⟩

/-- `float(s)`: the accepted literal's value rounded to binary64. -/
def pyFloatVal? (s : String) : Option RawQ :=
  (floatLit? s).bind roundDouble

/-- `float(s)` as a rational number. -/
def pyFloat? (s : String) : Option ℚ :=
  (pyFloatVal? s).map (fun r => mkRat r.n r.d)

/-- Truncation toward zero: Python `int(x)` on the float value `x`. -/
def rawTrunc (r : RawQ) : Int :=
  if 0 ≤ r.n then ((r.n.toNat / r.d : Nat) : Int) else -(((-r.n).toNat / r.d : Nat) : Int)

/-- The priority bucketing of `_analyze_update_patterns`
(`sitemap_server.py:469-476`): `float(priority)` rounds the literal to a
double, `priority_float * 10` rounds the exact tenfold to a double again,
`int(...)` truncates toward zero and `f"{... / 10:.1f}"` renders the
label. `none` when `float` raises the caught `ValueError` (and in the
out-of-scope non-finite cases noted at `floatLit?` and `roundDouble`). -/
def priorityBucket? (s : String) : Option String :=
  match pyFloatVal? s with
  | some x =>
    match roundDouble ⟨x.n * 10, x.d⟩ with
    | some y => some (bucketLabel (rawTrunc y))
    | none => none
  | none => none

/-- The changefreq-count and priority-bucket part of one iteration of the
`for item in url_details` loop (`sitemap_server.py:463-476`). -/
def stepMeta (st : UpdatePatterns) (r : UrlRecord) : UpdatePatterns :=
  let st1 : UpdatePatterns :=
    match r.changefreq with
    | some s => if s == "" then st else { st with changefreqDist := bump st.changefreqDist s }
    | none => st
  match r.priority with
  | some s =>
    if s == "" then st1
    else
      match priorityBucket? s with
      | some lbl => { st1 with priorityDist := bump st1.priorityDist lbl }
      | none => st1
  | none => st1

/-- The lastmod part of one loop iteration (`sitemap_server.py:478-503`):
the `total_with_lastmod` increment precedes the `try` block and therefore
survives any parse failure. -/
def stepLastmodField (now : PyDateTime) (st : UpdatePatterns) (r : UrlRecord) :
    UpdatePatterns :=
  match r.lastmod with
  | some s =>
    if s == "" then st
    else
      let st3 : UpdatePatterns :=
        { st with lastmod := { st.lastmod with total := st.lastmod.total + 1 } }
      match pyParseLastmod s with
      | some dt => { st3 with lastmod := stepLastmodParsed now dt st3.lastmod }
      | none => st3
  | none => st

/-- One iteration of the `for item in url_details` loop of
`_analyze_update_patterns` (`sitemap_server.py:462-503`). -/
def stepItem (now : PyDateTime) (st : UpdatePatterns) (r : UrlRecord) : UpdatePatterns :=
  stepLastmodField now (stepMeta st r) r

/-- `_analyze_update_patterns` (`sitemap_server.py:449-509`): a single
`now = datetime.now()` snapshot (line 460, always offset-naive), then one
pass over the records. -/
def analyze_update_patterns_core (nowTs : Int) (rs : List UrlRecord) : UpdatePatterns :=
  rs.foldl (stepItem ⟨nowTs, none⟩) ⟨[], [], ⟨0, none, none, 0, 0⟩⟩

/-- The parsed lastmod of a record, when present, truthy and parseable. -/
def lastmodParsed? (r : UrlRecord) : Option PyDateTime :=
  match r.lastmod with
  | some s => if s == "" then none else pyParseLastmod s
  | none => none

/-- Does the record carry a parseable lastmod within `n` days of the
(naive) snapshot `nowTs`, under the code's `timedelta.days` flooring? -/
def withinDays (nowTs : Int) (n : Int) (r : UrlRecord) : Bool :=
  match lastmodParsed? r with
  | some dt => decide (Int.fdiv (nowTs - dt.ts) 86400000000 ≤ n)
  | none => false

def naiveOpt : Option PyDateTime → Prop
  | none => True
  | some dt => dt.off = none

-- Field-preservation facts for the lastmod block.

theorem updEarliest_fields (dt : PyDateTime) (st : LastmodStats) :
    (updEarliest dt st).1.total = st.total ∧ (updEarliest dt st).1.latest = st.latest ∧
    (updEarliest dt st).1.recent7 = st.recent7 ∧
    (updEarliest dt st).1.recent30 = st.recent30 := by
  cases he : st.earliest with
  | none => simp [updEarliest, he]
  | some e0 =>
    cases hc : cmpDT dt e0 with
    | ok o => simp [updEarliest, he, hc]
    | error u => simp [updEarliest, he, hc]

theorem updLatest_fields (dt : PyDateTime) (st : LastmodStats) :
    (updLatest dt st).1.total = st.total ∧ (updLatest dt st).1.earliest = st.earliest ∧
    (updLatest dt st).1.recent7 = st.recent7 ∧
    (updLatest dt st).1.recent30 = st.recent30 := by
  cases hl : st.latest with
  | none => simp [updLatest, hl]
  | some l0 =>
    cases hc : cmpDT dt l0 with
    | ok o => simp [updLatest, hl, hc]
    | error u => simp [updLatest, hl, hc]

theorem updRecent_fields (now dt : PyDateTime) (st : LastmodStats) :
    (updRecent now dt st).total = st.total ∧
    (updRecent now dt st).earliest = st.earliest ∧
    (updRecent now dt st).latest = st.latest := by
  cases hs : subDT now dt with
  | error u => simp [updRecent, hs]
  | ok diff =>
    simp only [updRecent, hs]
    by_cases h7 : Int.fdiv diff 86400000000 ≤ 7 <;> by_cases h30 : Int.fdiv diff 86400000000 ≤ 30 <;>
      simp [h7, h30]

theorem stepLastmodParsed_total (now dt : PyDateTime) (st : LastmodStats) :
    (stepLastmodParsed now dt st).total = st.total := by
  have e1 := updEarliest_fields dt st
  cases h1 : updEarliest dt st with
  | mk st1 b1 =>
    rw [h1] at e1
    cases b1
    · simp only [stepLastmodParsed, h1]
      exact e1.1
    · have e2 := updLatest_fields dt st1
      cases h2 : updLatest dt st1 with
      | mk st2 b2 =>
        rw [h2] at e2
        cases b2
        · simp only [stepLastmodParsed, h1, h2]
          rw [e2.1, e1.1]
        · simp only [stepLastmodParsed, h1, h2]
          rw [(updRecent_fields now dt st2).1, e2.1, e1.1]

-- Behavior on uniformly offset-naive data: nothing raises, so the
-- recency counters see exactly the records within range.

theorem updEarliest_naive (dt : PyDateTime) (st : LastmodStats)
    (hdt : dt.off = none) (he : naiveOpt st.earliest) :
    (updEarliest dt st).2 = true ∧ naiveOpt (updEarliest dt st).1.earliest := by
  cases hse : st.earliest with
  | none => simp [updEarliest, hse, naiveOpt, hdt]
  | some e0 =>
    rw [hse] at he
    have he0 : e0.off = none := he
    have hc : cmpDT dt e0 = .ok (compare dt.ts e0.ts) := by simp [cmpDT, hdt, he0]
    simp only [updEarliest, hse, hc]
    refine ⟨by trivial, ?_⟩
    by_cases ho : compare dt.ts e0.ts = Ordering.lt <;> simp [naiveOpt, ho, hdt, he0]

theorem updLatest_naive (dt : PyDateTime) (st : LastmodStats)
    (hdt : dt.off = none) (hl : naiveOpt st.latest) :
    (updLatest dt st).2 = true ∧ naiveOpt (updLatest dt st).1.latest := by
  cases hsl : st.latest with
  | none => simp [updLatest, hsl, naiveOpt, hdt]
  | some l0 =>
    rw [hsl] at hl
    have hl0 : l0.off = none := hl
    have hc : cmpDT dt l0 = .ok (compare dt.ts l0.ts) := by simp [cmpDT, hdt, hl0]
    simp only [updLatest, hsl, hc]
    refine ⟨by trivial, ?_⟩
    by_cases ho : compare dt.ts l0.ts = Ordering.gt <;> simp [naiveOpt, ho, hdt, hl0]

theorem updRecent_naive (now dt : PyDateTime) (st : LastmodStats)
    (hnow : now.off = none) (hdt : dt.off = none) :
    (updRecent now dt st).recent7
      = st.recent7 + (if Int.fdiv (now.ts - dt.ts) 86400000000 ≤ 7 then 1 else 0) ∧
    (updRecent now dt st).recent30
      = st.recent30 + (if Int.fdiv (now.ts - dt.ts) 86400000000 ≤ 30 then 1 else 0) := by
  have hsub : subDT now dt = .ok (now.ts - dt.ts) := by simp [subDT, hnow, hdt]
  simp only [updRecent, hsub]
  by_cases h7 : Int.fdiv (now.ts - dt.ts) 86400000000 ≤ 7 <;>
    by_cases h30 : Int.fdiv (now.ts - dt.ts) 86400000000 ≤ 30 <;>
      simp [h7, h30]

theorem stepLastmodParsed_naive (now dt : PyDateTime) (st : LastmodStats)
    (hnow : now.off = none) (hdt : dt.off = none)
    (he : naiveOpt st.earliest) (hl : naiveOpt st.latest) :
    (stepLastmodParsed now dt st).recent7
        = st.recent7 + (if Int.fdiv (now.ts - dt.ts) 86400000000 ≤ 7 then 1 else 0) ∧
    (stepLastmodParsed now dt st).recent30
        = st.recent30 + (if Int.fdiv (now.ts - dt.ts) 86400000000 ≤ 30 then 1 else 0) ∧
    naiveOpt (stepLastmodParsed now dt st).earliest ∧
    naiveOpt (stepLastmodParsed now dt st).latest := by
  have hE := updEarliest_naive dt st hdt he
  have hEf := updEarliest_fields dt st
  cases h1 : updEarliest dt st with
  | mk st1 b1 =>
    rw [h1] at hE hEf
    cases b1 with
    | false => simp at hE
    | true =>
      have hl1 : naiveOpt st1.latest := by rw [hEf.2.1]; exact hl
      have hL := updLatest_naive dt st1 hdt hl1
      have hLf := updLatest_fields dt st1
      cases h2 : updLatest dt st1 with
      | mk st2 b2 =>
        rw [h2] at hL hLf
        cases b2 with
        | false => simp at hL
        | true =>
          have hR := updRecent_naive now dt st2 hnow hdt
          have hRf := updRecent_fields now dt st2
          simp only [stepLastmodParsed, h1, h2]
          refine ⟨?_, ?_, ?_, ?_⟩
          · rw [hR.1, hLf.2.2.1, hEf.2.2.1]
          · rw [hR.2, hLf.2.2.2, hEf.2.2.2]
          · rw [hRf.2.1, hLf.2.1]
            exact hE.2
          · rw [hRf.2.2]
            exact hL.2

theorem stepMeta_lastmod (st : UpdatePatterns) (r : UrlRecord) :
    (stepMeta st r).lastmod = st.lastmod := by
  simp only [stepMeta]
  cases r.changefreq <;> cases r.priority <;> simp only [] <;>
    (repeat' split) <;> rfl

theorem stepLastmodField_total (now : PyDateTime) (st : UpdatePatterns) (r : UrlRecord) :
    (stepLastmodField now st r).lastmod.total
      = st.lastmod.total + (if truthy r.lastmod then 1 else 0) := by
  cases hl : r.lastmod with
  | none => simp [stepLastmodField, hl, truthy]
  | some s =>
    by_cases hs : s = ""
    · subst hs
      simp [stepLastmodField, hl, truthy]
    · cases hp : pyParseLastmod s with
      | none => simp [stepLastmodField, hl, hs, hp, truthy]
      | some dt => simp [stepLastmodField, hl, hs, hp, truthy, stepLastmodParsed_total]

theorem analyze_total_aux (now : PyDateTime) :
    ∀ (rs : List UrlRecord) (st : UpdatePatterns),
      (rs.foldl (stepItem now) st).lastmod.total
        = st.lastmod.total + rs.countP (fun r => truthy r.lastmod) := by
  intro rs
  induction rs with
  | nil => intro st; simp
  | cons r rs ih =>
    intro st
    rw [List.foldl_cons, ih]
    have h1 : (stepItem now st r).lastmod.total
        = st.lastmod.total + (if truthy r.lastmod then 1 else 0) := by
      rw [stepItem, stepLastmodField_total, stepMeta_lastmod]
    rw [h1, List.countP_cons]
    by_cases ht : truthy r.lastmod <;> simp [ht] <;> omega

theorem stepLastmodField_naive (nowTs : Int) (st : UpdatePatterns) (r : UrlRecord)
    (hr : ∀ dt, lastmodParsed? r = some dt → dt.off = none)
    (he : naiveOpt st.lastmod.earliest) (hl : naiveOpt st.lastmod.latest) :
    (stepLastmodField ⟨nowTs, none⟩ st r).lastmod.recent7
        = st.lastmod.recent7 + (if withinDays nowTs 7 r then 1 else 0) ∧
    (stepLastmodField ⟨nowTs, none⟩ st r).lastmod.recent30
        = st.lastmod.recent30 + (if withinDays nowTs 30 r then 1 else 0) ∧
    naiveOpt (stepLastmodField ⟨nowTs, none⟩ st r).lastmod.earliest ∧
    naiveOpt (stepLastmodField ⟨nowTs, none⟩ st r).lastmod.latest := by
  cases hlm : r.lastmod with
  | none => simp [stepLastmodField, withinDays, lastmodParsed?, hlm, he, hl]
  | some s =>
    by_cases hs : s = ""
    · subst hs
      simp [stepLastmodField, withinDays, lastmodParsed?, hlm, he, hl]
    · cases hp : pyParseLastmod s with
      | none => simp [stepLastmodField, withinDays, lastmodParsed?, hlm, hs, hp, he, hl]
      | some dt =>
        have hdt : dt.off = none := hr dt (by simp [lastmodParsed?, hlm, hs, hp])
        have hstep := stepLastmodParsed_naive ⟨nowTs, none⟩ dt
          { st.lastmod with total := st.lastmod.total + 1 } rfl hdt he hl
        have hred : (stepLastmodField ⟨nowTs, none⟩ st r).lastmod
            = stepLastmodParsed ⟨nowTs, none⟩ dt
                { st.lastmod with total := st.lastmod.total + 1 } := by
          simp [stepLastmodField, hlm, hs, hp]
        rw [hred]
        refine ⟨?_, ?_, hstep.2.2.1, hstep.2.2.2⟩
        · rw [hstep.1]
          simp [withinDays, lastmodParsed?, hlm, hs, hp]
        · rw [hstep.2.1]
          simp [withinDays, lastmodParsed?, hlm, hs, hp]

theorem analyze_recent_aux (nowTs : Int) :
    ∀ (rs : List UrlRecord) (st : UpdatePatterns),
      (∀ r ∈ rs, ∀ dt, lastmodParsed? r = some dt → dt.off = none) →
      naiveOpt st.lastmod.earliest → naiveOpt st.lastmod.latest →
      (rs.foldl (stepItem ⟨nowTs, none⟩) st).lastmod.recent7
          = st.lastmod.recent7 + rs.countP (withinDays nowTs 7) ∧
      (rs.foldl (stepItem ⟨nowTs, none⟩) st).lastmod.recent30
          = st.lastmod.recent30 + rs.countP (withinDays nowTs 30) := by
  intro rs
  induction rs with
  | nil => intro st h he hl; simp
  | cons r rs ih =>
    intro st h he hl
    have hr := h r (List.mem_cons_self r rs)
    have hstep := stepLastmodField_naive nowTs (stepMeta st r) r hr
      (by rw [stepMeta_lastmod]; exact he) (by rw [stepMeta_lastmod]; exact hl)
    rw [stepMeta_lastmod] at hstep
    have ihh := ih (stepItem ⟨nowTs, none⟩ st r)
      (fun r' hr' => h r' (List.mem_cons_of_mem _ hr'))
      (by rw [stepItem]; exact hstep.2.2.1)
      (by rw [stepItem]; exact hstep.2.2.2)
    rw [List.foldl_cons]
    constructor
    · rw [ihh.1, List.countP_cons, stepItem, hstep.1]
      by_cases h7 : withinDays nowTs 7 r <;> simp [h7] <;> omega
    · rw [ihh.2, List.countP_cons, stepItem, hstep.2.1]
      by_cases h30 : withinDays nowTs 30 r <;> simp [h30] <;> omega

/-- Claim C4 (counterexample): `total_with_lastmod` is incremented before
the parse `try:` block (`sitemap_server.py:481`), so a record whose
`lastmod` is present but unparsable is still counted — the field counts
present values, not parseable ones. -/
theorem c4_counterexample :
    (analyze_update_patterns_core 0
      [⟨"https://a.com/x", some "garbage", none, none⟩]).lastmod.total = 1 ∧
    ([⟨"https://a.com/x", some "garbage", none, none⟩] : List UrlRecord).countP
      (fun r => (lastmodParsed? r).isSome) = 0 := by
  exact ⟨rfl, rfl⟩

/-- Claim C4 (amended): `total_with_lastmod` equals the number of records
whose `last_modified` is present and truthy — parseable or not; records
with unparsable values are still excluded from the date-dependent
computations; and on records whose parsed dates are uniformly offset-naive
(the `datetime.now()` snapshot is always naive) the 7-day and 30-day
recency counts are both computed against the same single `now` snapshot:
each equals the number of records whose parsed lastmod lies within range
of that one snapshot. -/
theorem c4_lastmod_analysis_amended (nowTs : Int) (rs : List UrlRecord) :
    (analyze_update_patterns_core nowTs rs).lastmod.total
      = rs.countP (fun r => truthy r.lastmod) ∧
    ((∀ r ∈ rs, ∀ dt, lastmodParsed? r = some dt → dt.off = none) →
      (analyze_update_patterns_core nowTs rs).lastmod.recent7
          = rs.countP (withinDays nowTs 7) ∧
      (analyze_update_patterns_core nowTs rs).lastmod.recent30
          = rs.countP (withinDays nowTs 30)) := by
  constructor
  · have h := analyze_total_aux ⟨nowTs, none⟩ rs ⟨[], [], ⟨0, none, none, 0, 0⟩⟩
    simpa [analyze_update_patterns_core] using h
  · intro h
    have h2 := analyze_recent_aux nowTs rs ⟨[], [], ⟨0, none, none, 0, 0⟩⟩ h
      (by simp [naiveOpt]) (by simp [naiveOpt])
    constructor
    · have := h2.1
      simpa [analyze_update_patterns_core] using this
    · have := h2.2
      simpa [analyze_update_patterns_core] using this

/-- Witness for `c4_lastmod_analysis_amended`: with the snapshot at
1970-01-02 and one parseable record dated 1970-01-01 plus one record with
an unparsable value, the total is 2 while both recency counters see only
the one parseable record. -/
theorem c4_lastmod_analysis_amended_witness :
    (analyze_update_patterns_core 86400000000
      [⟨"https://a.com/x", some "1970-01-01", none, none⟩,
       ⟨"https://a.com/y", some "bad", none, none⟩]).lastmod.total = 2 ∧
    (analyze_update_patterns_core 86400000000
      [⟨"https://a.com/x", some "1970-01-01", none, none⟩,
       ⟨"https://a.com/y", some "bad", none, none⟩]).lastmod.recent7 = 1 ∧
    (analyze_update_patterns_core 86400000000
      [⟨"https://a.com/x", some "1970-01-01", none, none⟩,
       ⟨"https://a.com/y", some "bad", none, none⟩]).lastmod.recent30 = 1 := by
  have hnaive : ∀ r ∈ ([⟨"https://a.com/x", some "1970-01-01", none, none⟩,
       ⟨"https://a.com/y", some "bad", none, none⟩] : List UrlRecord),
      ∀ dt, lastmodParsed? r = some dt → dt.off = none := by
    intro r hr dt hdt
    rcases List.mem_cons.mp hr with rfl | hr
    · have h0 : lastmodParsed?
          (⟨"https://a.com/x", some "1970-01-01", none, none⟩ : UrlRecord)
          = some ⟨0, none⟩ := rfl
      rw [h0] at hdt
      cases hdt
      rfl
    · rcases List.mem_cons.mp hr with rfl | hr
      · have h0 : lastmodParsed?
            (⟨"https://a.com/y", some "bad", none, none⟩ : UrlRecord) = none := rfl
        rw [h0] at hdt
        cases hdt
      · cases hr
  have hc := c4_lastmod_analysis_amended 86400000000
    [⟨"https://a.com/x", some "1970-01-01", none, none⟩,
     ⟨"https://a.com/y", some "bad", none, none⟩]
  refine ⟨hc.1.trans (by decide), ((hc.2 hnaive).1).trans (by decide),
    ((hc.2 hnaive).2).trans (by decide)⟩

theorem mkRat_mul_ten (n : Int) (d : Nat) : mkRat n d * 10 = mkRat (n * 10) d := by
  have h10 : (10 : ℚ) = mkRat 10 1 := by
    rw [Rat.mkRat_one]
    norm_num
  rw [h10, Rat.mkRat_mul_mkRat]
  norm_num

/-- `int()` truncation of a nonnegative double equals the floor of its
exact fraction. -/
theorem rawTrunc_eq_floor (r : RawQ) (h : 0 ≤ r.n) :
    rawTrunc r = ⌊(mkRat r.n r.d : ℚ)⌋ := by
  rw [Rat.mkRat_eq_divInt, Rat.divInt_eq_div, rawTrunc, if_pos h]
  have hc : (((r.d : ℤ) : ℚ)) = ((r.d : ℕ) : ℚ) := by push_cast; rfl
  rw [hc, Rat.floor_intCast_div_natCast, Int.natCast_div, Int.toNat_of_nonneg h]

set_option maxRecDepth 40000 in
set_option exponentiation.threshold 4000 in
/-- Claim C9 counterexample: `float("0.99999999999999999")` rounds to
exactly 1.0 (the nearest binary64 double), so the code buckets that
priority as "1.0"; exact decimal arithmetic — the claim's reading, the
value rounded down to the nearest 0.1 — gives "0.9". -/
theorem c9_counterexample :
    priorityBucket? "0.99999999999999999" = some "1.0" ∧
    pyFloat? "0.99999999999999999" = some 1 ∧
    bucketLabel ⌊(mkRat 99999999999999999 100000000000000000 : ℚ) * 10⌋ = "0.9" := by
  refine ⟨by decide, by decide, ?_⟩
  rw [mkRat_mul_ten]
  decide

set_option maxRecDepth 40000 in
set_option exponentiation.threshold 4000 in
/-- Claim C9 (amended): `float` rounds the priority literal to an IEEE-754
binary64 double and the multiplication by 10 rounds the exact tenfold
again; on a nonnegative doubly rounded value the `int` truncation is the
floor, so the bucket label is that value's floor of tenths. `"0.83"` and
`"0.85"` do both land in bucket `"0.8"`; and a record whose priority
yields no bucket (`float` raising the caught `ValueError`) contributes
exactly as if it had no priority: the whole analysis is unchanged. -/
theorem c9_priority_bucketing_amended :
    (∀ (s : String) (x y : RawQ), pyFloatVal? s = some x →
      roundDouble ⟨x.n * 10, x.d⟩ = some y → 0 ≤ y.n →
      priorityBucket? s = some (bucketLabel ⌊(mkRat y.n y.d : ℚ)⌋)) ∧
    priorityBucket? "0.83" = some "0.8" ∧
    priorityBucket? "0.85" = some "0.8" ∧
    (∀ (nowTs : Int) (rs1 rs2 : List UrlRecord) (r : UrlRecord) (s : String),
      r.priority = some s → priorityBucket? s = none →
      analyze_update_patterns_core nowTs (rs1 ++ r :: rs2) =
        analyze_update_patterns_core nowTs
          (rs1 ++ { r with priority := none } :: rs2)) := by
  refine ⟨?_, by decide, by decide, ?_⟩
  · intro s x y hs hr h0
    have hb : priorityBucket? s = some (bucketLabel (rawTrunc y)) := by
      simp only [priorityBucket?, hs, hr]
    rw [hb, rawTrunc_eq_floor y h0]
  · intro nowTs rs1 rs2 r s hs hq
    have hstep : ∀ st : UpdatePatterns,
        stepItem ⟨nowTs, none⟩ st r =
          stepItem ⟨nowTs, none⟩ st { r with priority := none } := by
      intro st
      have hmeta : stepMeta st r = stepMeta st { r with priority := none } := by
        simp only [stepMeta, hs]
        by_cases hse : s = ""
        · subst hse; simp
        · simp [hse, hq]
      rw [stepItem, stepItem, hmeta]
      rfl
    simp only [analyze_update_patterns_core, List.foldl_append, List.foldl_cons]
    rw [hstep]

set_option maxRecDepth 40000 in
set_option exponentiation.threshold 4000 in
/-- Witness for `c9_priority_bucketing_amended`: the doubly rounded floor
rule applied at `"0.83"` — whose double is 7475975381435023 / 2^53 and
whose tenfold double is 4672484613396889 / 2^49 — and the skip rule
applied to a record with the unparsable priority `"abc"`. -/
theorem c9_priority_bucketing_amended_witness :
    priorityBucket? "0.83" =
      some (bucketLabel ⌊(mkRat 4672484613396889 562949953421312 : ℚ)⌋) ∧
    analyze_update_patterns_core 0
        ([] ++ (⟨"https://a.com/x", none, none, some "abc"⟩ : UrlRecord) :: []) =
      analyze_update_patterns_core 0
        ([] ++ (⟨"https://a.com/x", none, none, none⟩ : UrlRecord) :: []) :=
  ⟨c9_priority_bucketing_amended.1 "0.83" ⟨7475975381435023, 9007199254740992⟩
      ⟨4672484613396889, 562949953421312⟩ (by decide) (by decide) (by decide),
   c9_priority_bucketing_amended.2.2.2 0 [] []
     ⟨"https://a.com/x", none, none, some "abc"⟩ "abc" rfl (by decide)⟩
